import Mathlib

/-!
Shallow embedding of the deno-context library (source: `context.ts`, the
variant exposing `CancelSignal`, `value()` lookup and `ContextPromise`).

The embedding has two layers:

1. A pure layer for JavaScript values (`JSVal`), strict equality (`===`),
   `typeof`, and the `WithValue` tree (`VCtx`), used for key validation and
   bottom-up `value(key)` lookup.

2. A small-step layer for the mutable signal machinery: a `World` holds the
   states of every `CancelSignal` (`_error`, `AbortController` aborted flag,
   "abort" event listener list), the armed `setTimeout` timers, and the
   promise cells of `ContextPromise`.  The closures that the source registers
   as abort-event listeners are defunctionalized into `FnCode`; a fuel-indexed
   interpreter `run` executes `CancelSignal.cancel`, `AbortController.abort`,
   synchronous event dispatch and listener invocation exactly as the source
   does.
-/

namespace DenoContext

/-! ## JavaScript values and strict equality -/

/-- JavaScript numbers as far as the library observes them: either `NaN` or an
ordinary (finite) number.  `NaN` is never strictly equal to anything. -/
inductive JSNum where
  | nan : JSNum
  | fin : Int → JSNum
deriving DecidableEq

/-- JavaScript values usable as `WithValue` keys / values.  Structural values
(objects, arrays, functions) carry an identity so that `===` compares them by
reference. -/
inductive JSVal where
  | undef : JSVal
  | nullv : JSVal
  | boolv : Bool → JSVal
  | numv : JSNum → JSVal
  | strv : String → JSVal
  | objv : Nat → JSVal
  | arrv : Nat → JSVal
  | funcv : Nat → JSVal
deriving DecidableEq

/-- JavaScript `typeof` operator restricted to `JSVal`. -/
def jsTypeof : JSVal → String
  | .undef => "undefined"
  | .nullv => "object"
  | .boolv _ => "boolean"
  | .numv _ => "number"
  | .strv _ => "string"
  | .objv _ => "object"
  | .arrv _ => "object"
  | .funcv _ => "function"

/-- JavaScript `instanceof Array` restricted to `JSVal`. -/
def isArrayInst : JSVal → Bool
  | .arrv _ => true
  | _ => false

/-- JavaScript strict equality `===`: `NaN` is not equal to anything
(including itself); all other values compare structurally, with structural
values compared by identity. -/
def strictEq : JSVal → JSVal → Bool
  | .numv .nan, _ => false
  | _, .numv .nan => false
  | a, b => decide (a = b)

/-! ## The WithValue tree: key validation and value lookup -/

/-- Context tree as far as `value(key)` lookup is concerned: `Background` is
the root, `WithValue` binds one key/value pair over a parent, and
`WithCancel`/`WithTimeout` nodes (identified by their signal id) delegate
lookup to the parent unchanged. -/
inductive VCtx where
  | background : VCtx
  | withValue : VCtx → JSVal → JSVal → VCtx
  | cancelNode : VCtx → Nat → VCtx
deriving DecidableEq

/-- `value(key)`.  `Background.value` returns `null`; `WithValue.value`
returns its own bound value when `this._key === key` and otherwise recurses
into the parent; cancelable nodes delegate to the parent. -/
def VCtx.value : VCtx → JSVal → Option JSVal
  | .background, _ => none
  | .withValue p k v, key => if strictEq k key then some v else p.value key
  | .cancelNode p _, key => p.value key

/-- The `WithValue` constructor.  Mirrors the four key checks of the source in
order: `key === undefined || key === null`, `key instanceof Array`,
`typeof key === "object"`, `typeof key === "function"`; each failing check
throws the corresponding `Error` message, otherwise the node is created. -/
def withValueMk (parent : VCtx) (key val : JSVal) : Except String VCtx :=
  if strictEq key .undef || strictEq key .nullv then .error "undefined or null key"
  else if isArrayInst key then .error "array key"
  else if jsTypeof key = "object" then .error "object key"
  else if jsTypeof key = "function" then .error "function key"
  else .ok (.withValue parent key val)

/-- Characterization predicate: the keys the specification says are invalid
(undefined, null, plain objects, arrays, functions). -/
def isBadKey : JSVal → Bool
  | .undef => true
  | .nullv => true
  | .objv _ => true
  | .arrv _ => true
  | .funcv _ => true
  | _ => false

/-- The error message `withValueMk` produces for each invalid key. -/
def keyErrMsg : JSVal → String
  | .undef => "undefined or null key"
  | .nullv => "undefined or null key"
  | .arrv _ => "array key"
  | .objv _ => "object key"
  | .funcv _ => "function key"
  | _ => ""

/-- A layer of an arbitrary context chain, for stating lookup properties over
whole chains: either a `WithValue` binding or a cancelable pass-through node. -/
inductive Layer where
  | bindL : JSVal → JSVal → Layer
  | cancelL : Nat → Layer
deriving DecidableEq

/-- Build the context chain described by a list of layers (head = tail node of
the chain, i.e. the node the query starts at), rooted at `Background`. -/
def stackCtx : List Layer → VCtx
  | [] => .background
  | .bindL k v :: rest => .withValue (stackCtx rest) k v
  | .cancelL sid :: rest => .cancelNode (stackCtx rest) sid

theorem strictEq_nan_right (a : JSVal) : strictEq a (.numv .nan) = false := by
  cases a with
  | numv n => cases n <;> rfl
  | _ => rfl

theorem strictEq_refl_of_ne_nan (a : JSVal) (h : a ≠ .numv .nan) :
    strictEq a a = true := by
  cases a with
  | numv n =>
    cases n with
    | nan => exact absurd rfl h
    | fin i => simp [strictEq]
  | undef => rfl
  | nullv => rfl
  | boolv b => simp [strictEq]
  | strv s => simp [strictEq]
  | objv i => simp [strictEq]
  | arrv i => simp [strictEq]
  | funcv i => simp [strictEq]

/-- Looking up a key that no binding of the chain matches (under `===`)
returns `null` at every node. -/
theorem stackCtx_value_unbound (ls : List Layer) (key : JSVal)
    (h : ∀ k v, Layer.bindL k v ∈ ls → strictEq k key = false) :
    (stackCtx ls).value key = none := by
  induction ls with
  | nil => rfl
  | cons l rest ih =>
    cases l with
    | bindL k v =>
      have hk : strictEq k key = false := h k v (List.mem_cons_self _ _)
      simp only [stackCtx, VCtx.value, hk, if_false, Bool.false_eq_true]
      exact ih (fun k2 v2 hm => h k2 v2 (List.mem_cons_of_mem _ hm))
    | cancelL sid =>
      simp only [stackCtx, VCtx.value]
      exact ih (fun k2 v2 hm => h k2 v2 (List.mem_cons_of_mem _ hm))

/-! ## Signals, timers, promises: the mutable world -/

/-- Cancellation causes: the `Canceled` and `DeadlineExceeded` error classes. -/
inductive Err where
  | canceled : Err
  | deadlineExceeded : Err
deriving DecidableEq

/-- Defunctionalized closures that the source registers as "abort" event
listeners (or passes to `onCanceled`):

* `cancelHandler p c` is `const handler = () => this._signal.cancel(parentSignal.error()!)`
  from the `WithCancel` constructor (`p` = parent signal, `c` = this signal);
* `removeHandler p h` is `() => parentSignal.removeEventListener("abort", handler)`;
* `clearTimeoutFn tid` is `() => clearTimeout(id)` from the `WithTimeout`
  constructor;
* `rejectPromise pid` is `(reason) => this.reject(reason)` from the
  `ContextPromise` constructor;
* `wrapper s fn` is the anonymous listener `() => fn(this._error)` that
  `CancelSignal.onCanceled` actually registers via `addEventListener` (`s` is
  the signal whose `_error` is read at invocation time).  Note that `wrapper s fn`
  and `fn` are distinct function objects, which is why
  `removeEventListener("abort", handler)` does not find the registered listener. -/
inductive FnCode where
  | cancelHandler : Nat → Nat → FnCode
  | removeHandler : Nat → FnCode → FnCode
  | clearTimeoutFn : Nat → FnCode
  | rejectPromise : Nat → FnCode
  | wrapper : Nat → FnCode → FnCode
deriving DecidableEq

/-- State of one `CancelSignal`: its `_error` field, the `aborted` flag of the
owned `AbortController`, and the registered "abort" listeners in registration
order (all registered with `{ once: true }`). -/
structure SignalSt where
  error : Option Err
  aborted : Bool
  listeners : List FnCode
deriving DecidableEq

/-- The callback armed by a `setTimeout` call in the source: either the
`WithTimeout` deadline callback `() => this._signal.cancel(new DeadlineExceeded())`
or an executor resolving a promise with a value. -/
inductive TimerAct where
  | fireDeadline : Nat → TimerAct
  | resolveLaterAct : Nat → Int → TimerAct
deriving DecidableEq

/-- An armed timer: its absolute due time and its callback. -/
structure TimerSt where
  due : Nat
  act : TimerAct
deriving DecidableEq

/-- Settlement state of the promise wrapped by a `ContextPromise` (first
settlement wins; promised values are modelled as integers). -/
inductive PromSt where
  | pending : PromSt
  | resolvedWith : Int → PromSt
  | rejectedWith : Option Err → PromSt
deriving DecidableEq

/-- The whole mutable state: all signals, armed timers and promise cells,
with allocation counters and the current time. -/
structure World where
  sigs : List (Nat × SignalSt)
  nextSig : Nat
  timers : List (Nat × TimerSt)
  nextTimer : Nat
  proms : List (Nat × PromSt)
  nextProm : Nat
  now : Nat
deriving DecidableEq

def emptyWorld : World := ⟨[], 0, [], 0, [], 0, 0⟩

/-! ### Association-list helpers -/

def assocGet {α : Type} : List (Nat × α) → Nat → Option α
  | [], _ => none
  | (j, a) :: rest, i => if j = i then some a else assocGet rest i

def assocUpd {α : Type} : List (Nat × α) → Nat → (α → α) → List (Nat × α)
  | [], _, _ => []
  | (j, a) :: rest, i, f => if j = i then (j, f a) :: rest else (j, a) :: assocUpd rest i f

def assocDel {α : Type} : List (Nat × α) → Nat → List (Nat × α)
  | [], _ => []
  | (j, a) :: rest, i => if j = i then assocDel rest i else (j, a) :: assocDel rest i

/-! ### World primitives -/

def sigGet (w : World) (i : Nat) : Option SignalSt := assocGet w.sigs i

/-- `CancelSignal.error()` of signal `i` (flattening a missing signal to `null`). -/
def sigErr (w : World) (i : Nat) : Option Err := (sigGet w i).bind (·.error)

/-- The `aborted` getter of signal `i`. -/
def sigAborted (w : World) (i : Nat) : Bool := ((sigGet w i).map (·.aborted)).getD false

/-- The "abort" listener list of signal `i`. -/
def sigListeners (w : World) (i : Nat) : List FnCode :=
  ((sigGet w i).map (·.listeners)).getD []

def updSig (w : World) (i : Nat) (f : SignalSt → SignalSt) : World :=
  { w with sigs := assocUpd w.sigs i f }

/-- `this._error = error` on signal `i`. -/
def setSigErr (w : World) (i : Nat) (e : Err) : World :=
  updSig w i fun st => { st with error := some e }

/-- Flipping the `aborted` flag of signal `i`. -/
def setSigAborted (w : World) (i : Nat) : World :=
  updSig w i fun st => { st with aborted := true }

/-- `addEventListener("abort", f, { once: true })` on signal `i`. -/
def addListener (w : World) (i : Nat) (f : FnCode) : World :=
  updSig w i fun st => { st with listeners := st.listeners ++ [f] }

/-- `removeEventListener("abort", f)` on signal `i`: removes the listener(s)
whose function identity equals `f` (a no-op when `f` was never registered). -/
def removeListener (w : World) (i : Nat) (f : FnCode) : World :=
  updSig w i fun st => { st with listeners := st.listeners.filter (fun g => decide (g ≠ f)) }

/-- `new CancelSignal()`: `_error = null`, a fresh unaborted controller, no
listeners. -/
def newSignal (w : World) : World × Nat :=
  ({ w with sigs := w.sigs ++ [(w.nextSig, ⟨none, false, []⟩)], nextSig := w.nextSig + 1 },
   w.nextSig)

/-- `setTimeout(act, delayMs)`: arms a one-shot timer due `delayMs` from now. -/
def armTimer (w : World) (delayMs : Nat) (act : TimerAct) : World × Nat :=
  ({ w with
      timers := w.timers ++ [(w.nextTimer, ⟨w.now + delayMs, act⟩)]
      nextTimer := w.nextTimer + 1 },
   w.nextTimer)

/-- `clearTimeout(tid)`. -/
def clearTimerW (w : World) (tid : Nat) : World :=
  { w with timers := assocDel w.timers tid }

def promGet (w : World) (pid : Nat) : Option PromSt := assocGet w.proms pid

/-- Allocate the promise cell wrapped by a `ContextPromise` (pending). -/
def allocProm (w : World) : World × Nat :=
  ({ w with proms := w.proms ++ [(w.nextProm, .pending)], nextProm := w.nextProm + 1 },
   w.nextProm)

/-- Resolving the wrapped promise: a no-op unless it is still pending. -/
def resolveProm (w : World) (pid : Nat) (v : Int) : World :=
  { w with proms := assocUpd w.proms pid fun st =>
      match st with
      | .pending => .resolvedWith v
      | s => s }

/-- Rejecting the wrapped promise: a no-op unless it is still pending. -/
def rejectProm (w : World) (pid : Nat) (r : Option Err) : World :=
  { w with proms := assocUpd w.proms pid fun st =>
      match st with
      | .pending => .rejectedWith r
      | s => s }

/-! ### The synchronous interpreter -/

/-- Pending synchronous work: `cancelSig` is `CancelSignal.cancel(e)`,
`abortSig` is `AbortController.abort()`, `dispatchAbort` walks the snapshot of
the listener list taken when the abort event fired (skipping listeners that
were removed in the meantime and removing each `once` listener before invoking
it, as DOM event dispatch does), and `invoke` calls one listener. -/
inductive Op where
  | cancelSig : Nat → Err → Op
  | abortSig : Nat → Op
  | dispatchAbort : Nat → List FnCode → Op
  | invoke : FnCode → Option Err → Op
deriving DecidableEq

/-- Fuel-indexed interpreter for the synchronous signal machinery.  `none`
means the fuel ran out; with enough fuel the result is independent of the fuel
(`run_mono`).  Mirrors the source exactly:

* `cancelSig i e` sets `_error = e` and then aborts (`CancelSignal.cancel`);
* `abortSig i` is a no-op on an already-aborted controller, otherwise flips
  `aborted` and dispatches the abort event to the registered listeners in
  registration order;
* `invoke (wrapper s fn) _` re-invokes `fn` with the current `_error` of `s`
  (the listener registered by `onCanceled` is `() => fn(this._error)`);
* `invoke (cancelHandler p c) _` is `() => this._signal.cancel(parentSignal.error()!)`
  (the non-null assertion is modelled by `Option.getD`; whenever this handler
  runs in a reachable world the parent has already recorded its error);
* `invoke (removeHandler p h) _` is `() => parentSignal.removeEventListener("abort", h)`;
* `invoke (clearTimeoutFn tid) _` is `() => clearTimeout(tid)`;
* `invoke (rejectPromise pid) reason` is `(reason) => this.reject(reason)`. -/
def run : Nat → World → Op → Option World
  | 0, _, _ => none
  | fuel + 1, w, op =>
    match op with
    | .cancelSig i e => run fuel (setSigErr w i e) (.abortSig i)
    | .abortSig i =>
      if sigAborted w i then some w
      else run fuel (setSigAborted w i) (.dispatchAbort i (sigListeners w i))
    | .dispatchAbort _ [] => some w
    | .dispatchAbort i (f :: rest) =>
      if f ∈ sigListeners w i then
        match run fuel (removeListener w i f) (.invoke f none) with
        | none => none
        | some w2 => run fuel w2 (.dispatchAbort i rest)
      else run fuel w (.dispatchAbort i rest)
    | .invoke f arg =>
      match f with
      | .wrapper s fn => run fuel w (.invoke fn (sigErr w s))
      | .cancelHandler p c => run fuel w (.cancelSig c ((sigErr w p).getD .canceled))
      | .removeHandler p h => some (removeListener w p h)
      | .clearTimeoutFn tid => some (clearTimerW w tid)
      | .rejectPromise pid => some (rejectProm w pid arg)

/-- `CancelSignal.onCanceled(fn)`: when the signal is already aborted the
callback runs immediately with the current `_error`; otherwise the anonymous
wrapper `() => fn(this._error)` is registered as a one-shot listener. -/
def onCanceled (fuel : Nat) (w : World) (i : Nat) (fn : FnCode) : Option World :=
  if sigAborted w i then run fuel w (.invoke fn (sigErr w i))
  else some (addListener w i (.wrapper i fn))

/-- The parent-wiring part of the `WithCancel` constructor, for a parent whose
`done()` returned the signal `p`: register
`handler = () => this._signal.cancel(parentSignal.error()!)` via
`parentSignal.onCanceled(handler)`, then register
`() => parentSignal.removeEventListener("abort", handler)` via
`this._signal.onCanceled`. -/
def withCancelWire (fuel : Nat) (w : World) (p : Nat) : Option (World × Nat) :=
  match onCanceled fuel (newSignal w).1 p (.cancelHandler p (newSignal w).2) with
  | none => none
  | some w2 =>
    match onCanceled fuel w2 (newSignal w).2
        (.removeHandler p (.cancelHandler p (newSignal w).2)) with
    | none => none
    | some w3 => some (w3, (newSignal w).2)

/-- The `WithCancel` constructor.  Allocates a fresh `CancelSignal`
(`newSignal`); when the parent exposes a done signal it adds the propagation
wiring (`withCancelWire`).  Returns the new node's signal id. -/
def withCancelMk (fuel : Nat) (w : World) (parentDone : Option Nat) :
    Option (World × Nat) :=
  match parentDone with
  | none => some (newSignal w)
  | some p => withCancelWire fuel w p

/-- The `WithTimeout` constructor: `super(ctx)`, then
`const id = setTimeout(() => this._signal.cancel(new DeadlineExceeded()), ms)`,
then `this._signal.onCanceled(() => clearTimeout(id))`. -/
def withTimeoutMk (fuel : Nat) (w : World) (parentDone : Option Nat) (ms : Nat) :
    Option (World × Nat) :=
  match withCancelMk fuel w parentDone with
  | none => none
  | some (w1, s) =>
    match onCanceled fuel (armTimer w1 ms (.fireDeadline s)).1 s
        (.clearTimeoutFn (armTimer w1 ms (.fireDeadline s)).2) with
    | none => none
    | some w3 => some (w3, s)

/-- `WithCancel.cancel()` / `WithTimeout.cancel()`:
`this._signal.cancel(new Canceled())`. -/
def cancelCtx (fuel : Nat) (w : World) (s : Nat) : Option World :=
  run fuel w (.cancelSig s .canceled)

/-- The earliest armed timer that is due by time `t` (ties broken by timer id,
i.e. arming order, since ids increase along the list). -/
def earliestDue (w : World) (t : Nat) : Option (Nat × TimerSt) :=
  w.timers.foldl
    (fun acc p =>
      if p.2.due ≤ t then
        match acc with
        | none => some p
        | some q => if p.2.due < q.2.due then some p else acc
      else acc)
    none

/-- Advance the event loop to absolute time `t`: repeatedly pick the earliest
due timer, disarm it, run its callback, and continue; when no timer is due the
clock simply advances. -/
def elapseTo : Nat → World → Nat → Option World
  | 0, _, _ => none
  | fuel + 1, w, t =>
    match earliestDue w t with
    | none => some { w with now := t }
    | some (tid, tm) =>
      let w1 : World := { clearTimerW w tid with now := tm.due }
      match
        (match tm.act with
         | .fireDeadline s => run fuel w1 (.cancelSig s .deadlineExceeded)
         | .resolveLaterAct pid v => some (resolveProm w1 pid v)) with
      | none => none
      | some w2 => elapseTo fuel w2 t

/-- Let `d` time units pass. -/
def elapse (fuel : Nat) (w : World) (d : Nat) : Option World :=
  elapseTo fuel w (w.now + d)

/-! ### ContextPromise -/

/-- Defunctionalized executors passed to `new ContextPromise(ctx, executor)`,
covering the behaviours the claims exercise: an executor that never settles on
its own, one that resolves synchronously, and one that resolves after a
delay (via `setTimeout`). -/
inductive ExecutorCode where
  | execNoop : ExecutorCode
  | resolveNow : Int → ExecutorCode
  | resolveAfter : Nat → Int → ExecutorCode
deriving DecidableEq

/-- Run the executor synchronously with the resolve/reject capabilities of the
freshly created promise cell `pid`. -/
def runExecutor (w : World) (pid : Nat) : ExecutorCode → World
  | .execNoop => w
  | .resolveNow v => resolveProm w pid v
  | .resolveAfter ms v => (armTimer w ms (.resolveLaterAct pid v)).1

/-- The `ContextPromise` constructor: allocates the wrapped promise, runs the
executor synchronously, then does
`ctx.done()?.onCanceled((reason) => this.reject(reason))`. -/
def contextPromiseMk (fuel : Nat) (w : World) (ctxDone : Option Nat)
    (ex : ExecutorCode) : Option (World × Nat) :=
  match ctxDone with
  | none => some (runExecutor (allocProm w).1 (allocProm w).2 ex, (allocProm w).2)
  | some sid =>
    match onCanceled fuel (runExecutor (allocProm w).1 (allocProm w).2 ex) sid
        (.rejectPromise (allocProm w).2) with
    | none => none
    | some w3 => some (w3, (allocProm w).2)

/-! ### Chains of WithCancel / WithTimeout nodes -/

/-- Which cancelable constructor a chain node uses. -/
inductive NodeKind where
  | cancelable : NodeKind
  | timeout : Nat → NodeKind
deriving DecidableEq

/-- `new WithCancel(parent)` or `new WithTimeout(parent, ms)`. -/
def mkNode (fuel : Nat) (w : World) (parentDone : Option Nat) :
    NodeKind → Option (World × Nat)
  | .cancelable => withCancelMk fuel w parentDone
  | .timeout ms => withTimeoutMk fuel w parentDone ms

/-- Build the chain `parent → A1 → A2 → …` of cancelable nodes described by
`ks`, returning the signal ids of the nodes in chain order. -/
def buildChain (fuel : Nat) (w : World) (parentDone : Option Nat) :
    List NodeKind → Option (World × List Nat)
  | [] => some (w, [])
  | k :: ks =>
    match mkNode fuel w parentDone k with
    | none => none
    | some (w1, s) =>
      match buildChain fuel w1 (some s) ks with
      | none => none
      | some (w2, ss) => some (w2, s :: ss)

/-! ## Basic lemmas about the world primitives -/

theorem assocGet_upd_self {α : Type} (l : List (Nat × α)) (i : Nat) (f : α → α) :
    assocGet (assocUpd l i f) i = (assocGet l i).map f := by
  induction l with
  | nil => rfl
  | cons hd tl ih =>
    obtain ⟨j, a⟩ := hd
    by_cases h : j = i <;> simp [assocUpd, assocGet, h, ih]

theorem assocGet_upd_ne {α : Type} (l : List (Nat × α)) (i j : Nat) (f : α → α)
    (h : j ≠ i) : assocGet (assocUpd l i f) j = assocGet l j := by
  induction l with
  | nil => rfl
  | cons hd tl ih =>
    obtain ⟨k, a⟩ := hd
    simp only [assocUpd]
    by_cases hk : k = i
    · subst hk
      rw [if_pos rfl]
      have hkj : k ≠ j := fun heq => h (heq ▸ rfl)
      simp [assocGet, hkj]
    · rw [if_neg hk]
      by_cases hkj : k = j <;> simp [assocGet, hkj, ih]

theorem assocUpd_self_of_fix {α : Type} (l : List (Nat × α)) (i : Nat) (f : α → α)
    (h : ∀ a, assocGet l i = some a → f a = a) : assocUpd l i f = l := by
  induction l with
  | nil => rfl
  | cons hd tl ih =>
    obtain ⟨j, a⟩ := hd
    by_cases hj : j = i
    · subst hj
      have : f a = a := h a (by simp [assocGet])
      simp [assocUpd, this]
    · have := ih (fun a2 ha2 => h a2 (by simp [assocGet, hj, ha2]))
      simp [assocUpd, hj, this]

theorem assocGet_append {α : Type} (l1 l2 : List (Nat × α)) (i : Nat) :
    assocGet (l1 ++ l2) i =
      (match assocGet l1 i with
       | some a => some a
       | none => assocGet l2 i) := by
  induction l1 with
  | nil => simp [assocGet]
  | cons hd tl ih =>
    obtain ⟨j, a⟩ := hd
    by_cases h : j = i <;> simp [assocGet, h, ih]

theorem sigGet_updSig_self (w : World) (i : Nat) (f : SignalSt → SignalSt) :
    sigGet (updSig w i f) i = (sigGet w i).map f :=
  assocGet_upd_self _ _ _

theorem sigGet_updSig_ne (w : World) (i j : Nat) (f : SignalSt → SignalSt)
    (h : j ≠ i) : sigGet (updSig w i f) j = sigGet w j :=
  assocGet_upd_ne _ _ _ _ h

theorem sigGet_clearTimerW (w : World) (tid i : Nat) :
    sigGet (clearTimerW w tid) i = sigGet w i := rfl

theorem sigGet_resolveProm (w : World) (pid : Nat) (v : Int) (i : Nat) :
    sigGet (resolveProm w pid v) i = sigGet w i := rfl

theorem sigGet_rejectProm (w : World) (pid : Nat) (r : Option Err) (i : Nat) :
    sigGet (rejectProm w pid r) i = sigGet w i := rfl

/-- A `removeEventListener` call whose target is not in the listener list
leaves the world unchanged. -/
theorem removeListener_eq_self (w : World) (i : Nat) (f : FnCode)
    (h : f ∉ sigListeners w i) : removeListener w i f = w := by
  have hsigs : assocUpd w.sigs i
      (fun st => { st with listeners := st.listeners.filter (fun g => decide (g ≠ f)) }) = w.sigs := by
    apply assocUpd_self_of_fix
    intro st hst
    obtain ⟨e, b, ls⟩ := st
    have hmem : f ∉ ls := by
      intro hf
      apply h
      simp [sigListeners, sigGet, hst, hf]
    have hl : ls.filter (fun g => decide (g ≠ f)) = ls := by
      apply List.filter_eq_self.mpr
      intro a ha
      simp only [ne_eq, decide_eq_true_eq]
      intro heq
      exact hmem (heq ▸ ha)
    exact congrArg (SignalSt.mk e b) hl
  unfold removeListener updSig
  rw [hsigs]

/-! ### Unfolding equations for the interpreter -/

theorem run_zero (w : World) (op : Op) : run 0 w op = none := rfl

theorem run_cancelSig (n : Nat) (w : World) (i : Nat) (e : Err) :
    run (n + 1) w (.cancelSig i e) = run n (setSigErr w i e) (.abortSig i) := rfl

theorem run_abortSig (n : Nat) (w : World) (i : Nat) :
    run (n + 1) w (.abortSig i) =
      if sigAborted w i then some w
      else run n (setSigAborted w i) (.dispatchAbort i (sigListeners w i)) := rfl

theorem run_dispatch_nil (n : Nat) (w : World) (i : Nat) :
    run (n + 1) w (.dispatchAbort i []) = some w := rfl

theorem run_dispatch_cons (n : Nat) (w : World) (i : Nat) (f : FnCode) (rest : List FnCode) :
    run (n + 1) w (.dispatchAbort i (f :: rest)) =
      if f ∈ sigListeners w i then
        match run n (removeListener w i f) (.invoke f none) with
        | none => none
        | some w2 => run n w2 (.dispatchAbort i rest)
      else run n w (.dispatchAbort i rest) := rfl

theorem run_invoke_wrapper (n : Nat) (w : World) (s : Nat) (fn : FnCode) (arg : Option Err) :
    run (n + 1) w (.invoke (.wrapper s fn) arg) = run n w (.invoke fn (sigErr w s)) := rfl

theorem run_invoke_cancelHandler (n : Nat) (w : World) (p c : Nat) (arg : Option Err) :
    run (n + 1) w (.invoke (.cancelHandler p c) arg) =
      run n w (.cancelSig c ((sigErr w p).getD .canceled)) := rfl

theorem run_invoke_removeHandler (n : Nat) (w : World) (p : Nat) (h : FnCode) (arg : Option Err) :
    run (n + 1) w (.invoke (.removeHandler p h) arg) = some (removeListener w p h) := rfl

theorem run_invoke_clearTimeoutFn (n : Nat) (w : World) (tid : Nat) (arg : Option Err) :
    run (n + 1) w (.invoke (.clearTimeoutFn tid) arg) = some (clearTimerW w tid) := rfl

theorem run_invoke_rejectPromise (n : Nat) (w : World) (pid : Nat) (arg : Option Err) :
    run (n + 1) w (.invoke (.rejectPromise pid) arg) = some (rejectProm w pid arg) := rfl

/-! ### Fuel monotonicity of the interpreter -/

theorem run_mono : ∀ {n m : Nat}, n ≤ m → ∀ {w : World} {op : Op} {w2 : World},
    run n w op = some w2 → run m w op = some w2 := by
  intro n
  induction n with
  | zero => intro m _ w op w2 h; simp [run] at h
  | succ n ih =>
    intro m hm w op w2 h
    obtain ⟨m2, rfl⟩ : ∃ m2, m = m2 + 1 := ⟨m - 1, by omega⟩
    have hn : n ≤ m2 := by omega
    cases op with
    | cancelSig i e =>
      simp only [run] at h ⊢
      exact ih hn h
    | abortSig i =>
      simp only [run] at h ⊢
      by_cases hab : sigAborted w i
      · simpa [hab] using h
      · rw [if_neg hab] at h ⊢
        exact ih hn h
    | dispatchAbort i pending =>
      cases pending with
      | nil => simpa [run] using h
      | cons f rest =>
        simp only [run] at h ⊢
        by_cases hmem : f ∈ sigListeners w i
        · rw [if_pos hmem] at h ⊢
          cases heq : run n (removeListener w i f) (.invoke f none) with
          | none => rw [heq] at h; exact absurd h (by simp)
          | some w3 =>
            rw [heq] at h
            rw [ih hn heq]
            exact ih hn h
        · rw [if_neg hmem] at h ⊢
          exact ih hn h
    | invoke f arg =>
      cases f with
      | wrapper s fn =>
        simp only [run] at h ⊢
        exact ih hn h
      | cancelHandler p c =>
        simp only [run] at h ⊢
        exact ih hn h
      | removeHandler p hf => simpa [run] using h
      | clearTimeoutFn tid => simpa [run] using h
      | rejectPromise pid => simpa [run] using h

/-! ## Shape invariants for worlds built by the constructors -/

/-- Whether a function object is one of the anonymous wrappers created by
`onCanceled` (as opposed to a raw handler closure). -/
def isWrapperFn : FnCode → Bool
  | .wrapper _ _ => true
  | _ => false

/-- Every listener registered on any signal is an `onCanceled` wrapper.  This
holds in every world built by the constructors, because `addEventListener` is
only ever reached through `onCanceled`. -/
def WrapperOnly (w : World) : Prop :=
  ∀ i f, f ∈ sigListeners w i → isWrapperFn f = true

/-- Listeners whose invocation cannot change any signal's `error`/`aborted`
state nor any listener list (value-wise): the teardown wrapper (its removal
target is a raw handler, which is never registered) and the `clearTimeout`
wrapper. -/
def BenignFn : FnCode → Prop
  | .wrapper _ inner =>
    match inner with
    | .removeHandler _ h => isWrapperFn h = false
    | .clearTimeoutFn _ => True
    | _ => False
  | _ => False

theorem sigListeners_of_get {w : World} {i : Nat} {st : SignalSt}
    (h : sigGet w i = some st) : sigListeners w i = st.listeners := by
  simp [sigListeners, h]

theorem sigErr_of_get {w : World} {i : Nat} {st : SignalSt}
    (h : sigGet w i = some st) : sigErr w i = st.error := by
  simp [sigErr, h]

theorem sigAborted_of_get {w : World} {i : Nat} {st : SignalSt}
    (h : sigGet w i = some st) : sigAborted w i = st.aborted := by
  simp [sigAborted, h]

theorem wrapperOnly_of_pointwise {w1 w2 : World}
    (h : ∀ i, sigGet w2 i = sigGet w1 i) (hwo : WrapperOnly w1) : WrapperOnly w2 := by
  intro i f hf
  apply hwo i f
  unfold sigListeners at hf ⊢
  rw [h i] at hf
  exact hf

theorem wrapperOnly_updSig {w : World} {i : Nat} {f : SignalSt → SignalSt}
    (hsub : ∀ st, (f st).listeners ⊆ st.listeners) (hwo : WrapperOnly w) :
    WrapperOnly (updSig w i f) := by
  intro j g hg
  by_cases hj : j = i
  · subst hj
    unfold sigListeners at hg
    rw [sigGet_updSig_self] at hg
    cases h2 : sigGet w j with
    | none => rw [h2] at hg; simp at hg
    | some st =>
      rw [h2] at hg
      have : g ∈ st.listeners := hsub st (by simpa using hg)
      exact hwo j g (by rw [sigListeners_of_get h2]; exact this)
  · unfold sigListeners at hg
    rw [sigGet_updSig_ne _ _ _ _ hj] at hg
    exact hwo j g hg

theorem wrapperOnly_setSigErr {w : World} {i : Nat} {e : Err}
    (hwo : WrapperOnly w) : WrapperOnly (setSigErr w i e) :=
  wrapperOnly_updSig (fun st => by simp) hwo

theorem wrapperOnly_setSigAborted {w : World} {i : Nat}
    (hwo : WrapperOnly w) : WrapperOnly (setSigAborted w i) :=
  wrapperOnly_updSig (fun st => by simp) hwo

theorem wrapperOnly_removeListener {w : World} {i : Nat} {f : FnCode}
    (hwo : WrapperOnly w) : WrapperOnly (removeListener w i f) :=
  wrapperOnly_updSig (fun st => by simp [List.filter_subset]) hwo

/-- Invoking a benign listener succeeds with two fuel units, leaves every
signal untouched (value-wise) and preserves the wrapper invariant. -/
theorem benign_invoke (w : World) (f : FnCode) (hb : BenignFn f) (hwo : WrapperOnly w) :
    ∃ w2, run 2 w (.invoke f none) = some w2 ∧
      (∀ x, sigGet w2 x = sigGet w x) ∧ WrapperOnly w2 ∧ w2.proms = w.proms := by
  cases f with
  | wrapper s inner =>
    cases inner with
    | removeHandler q h =>
      have hnw : isWrapperFn h = false := hb
      have hnotin : h ∉ sigListeners w q := by
        intro hin
        rw [hwo q h hin] at hnw
        exact Bool.noConfusion hnw
      refine ⟨w, ?_, fun x => rfl, hwo, rfl⟩
      show run 2 w (.invoke (.wrapper s (.removeHandler q h)) none) = some w
      simp only [run]
      rw [removeListener_eq_self w q h hnotin]
    | clearTimeoutFn tid =>
      refine ⟨clearTimerW w tid, ?_, fun x => rfl, ?_, rfl⟩
      · simp only [run]
      · intro i g hg
        exact hwo i g hg
    | cancelHandler p c => exact hb.elim
    | rejectPromise pid => exact hb.elim
    | wrapper s2 g => exact hb.elim
  | cancelHandler p c => exact hb.elim
  | removeHandler p h => exact hb.elim
  | clearTimeoutFn tid => exact hb.elim
  | rejectPromise pid => exact hb.elim

theorem filter_ne_cons_self {l : List FnCode} {f : FnCode} (hnd : (f :: l).Nodup) :
    (f :: l).filter (fun g => decide (g ≠ f)) = l := by
  have hf : f ∉ l := (List.nodup_cons.mp hnd).1
  rw [List.filter_cons]
  simp only [ne_eq, not_true_eq_false, decide_False, Bool.false_eq_true, if_false]
  apply List.filter_eq_self.mpr
  intro a ha
  simp only [ne_eq, decide_eq_true_eq]
  intro heq
  exact hf (heq ▸ ha)

theorem sigGet_setSigErr_self (w : World) (i : Nat) (e : Err) :
    sigGet (setSigErr w i e) i = (sigGet w i).map (fun st => { st with error := some e }) :=
  sigGet_updSig_self _ _ _

theorem sigGet_setSigErr_ne (w : World) (i j : Nat) (e : Err) (h : j ≠ i) :
    sigGet (setSigErr w i e) j = sigGet w j :=
  sigGet_updSig_ne _ _ _ _ h

theorem sigGet_setSigAborted_self (w : World) (i : Nat) :
    sigGet (setSigAborted w i) i = (sigGet w i).map (fun st => { st with aborted := true }) :=
  sigGet_updSig_self _ _ _

theorem sigGet_setSigAborted_ne (w : World) (i j : Nat) (h : j ≠ i) :
    sigGet (setSigAborted w i) j = sigGet w j :=
  sigGet_updSig_ne _ _ _ _ h

theorem sigGet_removeListener_self (w : World) (i : Nat) (f : FnCode) :
    sigGet (removeListener w i f) i =
      (sigGet w i).map
        (fun st => { st with listeners := st.listeners.filter (fun g => decide (g ≠ f)) }) :=
  sigGet_updSig_self _ _ _

theorem sigGet_removeListener_ne (w : World) (i j : Nat) (f : FnCode) (h : j ≠ i) :
    sigGet (removeListener w i f) j = sigGet w j :=
  sigGet_updSig_ne _ _ _ _ h

theorem sigGet_addListener_self (w : World) (i : Nat) (f : FnCode) :
    sigGet (addListener w i f) i =
      (sigGet w i).map (fun st => { st with listeners := st.listeners ++ [f] }) :=
  sigGet_updSig_self _ _ _

theorem sigGet_addListener_ne (w : World) (i j : Nat) (f : FnCode) (h : j ≠ i) :
    sigGet (addListener w i f) j = sigGet w j :=
  sigGet_updSig_ne _ _ _ _ h

/-- Dispatching a snapshot consisting of benign listeners followed by `tail`
reaches a world `w1` in which only signal `s`'s listener list changed (the
benign prefix was consumed), and any successful continuation of the dispatch
from `w1` over `tail` can be lifted to the full dispatch from `w`. -/
theorem benign_dispatch :
    ∀ (pre : List FnCode) (s : Nat) (tail : List FnCode) (w : World),
      (∀ f ∈ pre, BenignFn f) → WrapperOnly w →
      sigListeners w s = pre ++ tail → (pre ++ tail).Nodup →
      ∃ w1, (∀ x, x ≠ s → sigGet w1 x = sigGet w x) ∧
        sigGet w1 s = (sigGet w s).map (fun st => { st with listeners := tail }) ∧
        WrapperOnly w1 ∧ sigListeners w1 s = tail ∧
        (∀ n w2, run n w1 (.dispatchAbort s tail) = some w2 →
          ∃ m, run m w (.dispatchAbort s (pre ++ tail)) = some w2) := by
  intro pre
  induction pre with
  | nil =>
    intro s tail w _ hwo hlist hnd
    refine ⟨w, fun x _ => rfl, ?_, hwo, by simpa using hlist,
      fun n w2 hrun => ⟨n, by simpa using hrun⟩⟩
    cases hg : sigGet w s with
    | none => rfl
    | some st =>
      obtain ⟨e0, a0, ls0⟩ := st
      have hls : ls0 = tail := by
        have h3 := sigListeners_of_get hg
        rw [hlist] at h3
        simpa using h3.symm
      subst hls
      rfl
  | cons f pre2 ih =>
    intro s tail w hpre hwo hlist hnd
    have hb : BenignFn f := hpre f (List.mem_cons_self _ _)
    have hpre2 : ∀ g ∈ pre2, BenignFn g := fun g hg => hpre g (List.mem_cons_of_mem _ hg)
    have hlist2 : sigListeners w s = f :: (pre2 ++ tail) := by simpa using hlist
    have hnd1 : (f :: (pre2 ++ tail)).Nodup := by simpa using hnd
    have hnd2 : (pre2 ++ tail).Nodup := (List.nodup_cons.mp hnd1).2
    have hmem : f ∈ sigListeners w s := by
      rw [hlist2]; exact List.mem_cons_self _ _
    obtain ⟨st, hg⟩ : ∃ st, sigGet w s = some st := by
      cases h2 : sigGet w s with
      | none =>
        exfalso
        have h3 : sigListeners w s = [] := by simp [sigListeners, h2]
        rw [h3] at hlist2
        exact List.noConfusion hlist2
      | some st => exact ⟨st, rfl⟩
    obtain ⟨e0, a0, ls0⟩ := st
    have hls0 : ls0 = f :: (pre2 ++ tail) := by
      have h3 := sigListeners_of_get hg
      rw [hlist2] at h3
      simpa using h3.symm
    subst hls0
    have hgr_s : sigGet (removeListener w s f) s =
        some ⟨e0, a0, pre2 ++ tail⟩ := by
      rw [sigGet_removeListener_self, hg]
      exact congrArg some (congrArg (SignalSt.mk e0 a0) (filter_ne_cons_self hnd1))
    obtain ⟨wi, hrun_i, hpt, hwo_i, _⟩ :=
      benign_invoke (removeListener w s f) f hb (wrapperOnly_removeListener hwo)
    have hgi_s : sigGet wi s = some ⟨e0, a0, pre2 ++ tail⟩ := by
      rw [hpt s]; exact hgr_s
    obtain ⟨w1, h1ne, h1s, h1wo, h1ls, h1cont⟩ :=
      ih s tail wi hpre2 hwo_i (sigListeners_of_get hgi_s) hnd2
    refine ⟨w1, ?_, ?_, h1wo, h1ls, ?_⟩
    · intro x hx
      rw [h1ne x hx, hpt x, sigGet_removeListener_ne _ _ _ _ hx]
    · rw [h1s, hgi_s, hg]
      rfl
    · intro n w2 hrun
      obtain ⟨m0, hm0⟩ := h1cont n w2 hrun
      refine ⟨m0 + 3, ?_⟩
      show run ((m0 + 2) + 1) w (.dispatchAbort s (f :: (pre2 ++ tail))) = some w2
      rw [run_dispatch_cons, if_pos hmem, run_mono (by omega : 2 ≤ m0 + 2) hrun_i]
      exact run_mono (by omega : m0 ≤ m0 + 2) hm0

/-! ## Chains of cancelable nodes -/

/-- The propagation listener a chain node `s` carries for its child (the head
of `rest`): the `onCanceled` wrapper around
`() => childSignal.cancel(parentSignal.error()!)`. -/
def childPart (s : Nat) : List Nat → List FnCode
  | [] => []
  | s2 :: _ => [.wrapper s (.cancelHandler s s2)]

/-- Shape of suffixes of a freshly built `WithCancel`/`WithTimeout` chain: each
signal is unfired with no recorded error, and its listener list is a benign
prefix (teardown and `clearTimeout` wrappers) followed by the propagation
wrapper for the next chain node. -/
inductive Chain : World → List Nat → Prop where
  | nil (w : World) : Chain w []
  | cons (w : World) (s : Nat) (rest : List Nat) (st : SignalSt) (pre : List FnCode)
      (hget : sigGet w s = some st)
      (herr : st.error = none) (hab : st.aborted = false)
      (hpre : ∀ f ∈ pre, BenignFn f)
      (hshape : st.listeners = pre ++ childPart s rest)
      (hnd : st.listeners.Nodup)
      (hrest : Chain w rest) : Chain w (s :: rest)

theorem chain_cons_inv {w : World} {s : Nat} {rest : List Nat} (h : Chain w (s :: rest)) :
    ∃ st pre, sigGet w s = some st ∧ st.error = none ∧ st.aborted = false ∧
      (∀ f ∈ pre, BenignFn f) ∧ st.listeners = pre ++ childPart s rest ∧
      st.listeners.Nodup ∧ Chain w rest := by
  cases h with
  | cons s2 rest2 st pre hget herr hab hpre hshape hnd hrest =>
    exact ⟨st, pre, hget, herr, hab, hpre, hshape, hnd, hrest⟩

/-- `Chain` only inspects the signal states of its members. -/
theorem chain_congr {w1 w2 : World} :
    ∀ {sigs : List Nat}, (∀ j ∈ sigs, sigGet w2 j = sigGet w1 j) →
      Chain w1 sigs → Chain w2 sigs := by
  intro sigs
  induction sigs with
  | nil => intro _ _; exact Chain.nil _
  | cons s rest ihs =>
    intro h hch
    obtain ⟨st, pre, hget, herr, hab, hpre, hshape, hnd, hrest⟩ := chain_cons_inv hch
    exact Chain.cons _ s rest st pre ((h s (List.mem_cons_self _ _)).trans hget) herr hab
      hpre hshape hnd (ihs (fun j hj => h j (List.mem_cons_of_mem _ hj)) hrest)

/-- Canceling the first node of a chain-shaped suffix with cause `e`
eventually fires every node of the suffix with exactly that cause, and leaves
the `error`/`aborted`/listener state of every other signal untouched. -/
theorem cancel_chain :
    ∀ (rest : List Nat) (w : World) (s : Nat) (e : Err),
      Chain w (s :: rest) → (s :: rest).Nodup → WrapperOnly w →
      ∃ n w2, run n w (.cancelSig s e) = some w2 ∧
        (∀ j ∈ s :: rest, sigErr w2 j = some e ∧ sigAborted w2 j = true) ∧
        (∀ x, x ∉ s :: rest → sigGet w2 x = sigGet w x) ∧
        WrapperOnly w2 := by
  intro rest
  induction rest with
  | nil =>
    intro w s e hch hnd hwo
    obtain ⟨st, pre, hget, herr, hab, hpre, hshape, hndl, hrest⟩ := chain_cons_inv hch
    have hga_s : sigGet (setSigErr w s e) s = some ⟨some e, st.aborted, st.listeners⟩ := by
      rw [sigGet_setSigErr_self, hget]; rfl
    have hab_a : sigAborted (setSigErr w s e) s = false := by
      rw [sigAborted_of_get hga_s]; exact hab
    have hgb_s : sigGet (setSigAborted (setSigErr w s e) s) s =
        some ⟨some e, true, st.listeners⟩ := by
      rw [sigGet_setSigAborted_self, hga_s]; rfl
    have hgb_ne : ∀ x, x ≠ s → sigGet (setSigAborted (setSigErr w s e) s) x = sigGet w x := by
      intro x hx
      rw [sigGet_setSigAborted_ne _ _ _ hx, sigGet_setSigErr_ne _ _ _ _ hx]
    have hwo_b : WrapperOnly (setSigAborted (setSigErr w s e) s) :=
      wrapperOnly_setSigAborted (wrapperOnly_setSigErr hwo)
    obtain ⟨w1, h1ne, h1s, h1wo, h1ls, h1cont⟩ :=
      benign_dispatch pre s (childPart s ([] : List Nat)) (setSigAborted (setSigErr w s e) s)
        hpre hwo_b
        (by rw [sigListeners_of_get hgb_s]; exact hshape)
        (hshape ▸ hndl)
    have h1s_val : sigGet w1 s = some ⟨some e, true, childPart s ([] : List Nat)⟩ := by
      rw [h1s, hgb_s]; rfl
    have h1ne_w : ∀ x, x ≠ s → sigGet w1 x = sigGet w x := by
      intro x hx
      rw [h1ne x hx]; exact hgb_ne x hx
    have htail : run 1 w1 (.dispatchAbort s []) = some w1 := run_dispatch_nil 0 w1 s
    obtain ⟨m, hm⟩ := h1cont 1 w1 htail
    refine ⟨m + 2, w1, ?_, ?_, ?_, h1wo⟩
    · show run ((m + 1) + 1) w (.cancelSig s e) = some w1
      rw [run_cancelSig, run_abortSig, if_neg (by rw [hab_a]; exact Bool.false_ne_true)]
      have hlsa : sigListeners (setSigErr w s e) s = pre ++ childPart s ([] : List Nat) := by
        rw [sigListeners_of_get hga_s]; exact hshape
      rw [hlsa]
      exact hm
    · intro j hj
      have : j = s := by simpa using hj
      subst this
      exact ⟨sigErr_of_get h1s_val, sigAborted_of_get h1s_val⟩
    · intro x hx
      exact h1ne_w x (by simpa using hx)
  | cons s2 rest2 ih =>
    intro w s e hch hnd hwo
    obtain ⟨st, pre, hget, herr, hab, hpre, hshape, hndl, hrest⟩ := chain_cons_inv hch
    have hs_notin : s ∉ s2 :: rest2 := (List.nodup_cons.mp hnd).1
    have hnd_rest : (s2 :: rest2).Nodup := (List.nodup_cons.mp hnd).2
    have hga_s : sigGet (setSigErr w s e) s = some ⟨some e, st.aborted, st.listeners⟩ := by
      rw [sigGet_setSigErr_self, hget]; rfl
    have hab_a : sigAborted (setSigErr w s e) s = false := by
      rw [sigAborted_of_get hga_s]; exact hab
    have hgb_s : sigGet (setSigAborted (setSigErr w s e) s) s =
        some ⟨some e, true, st.listeners⟩ := by
      rw [sigGet_setSigAborted_self, hga_s]; rfl
    have hgb_ne : ∀ x, x ≠ s → sigGet (setSigAborted (setSigErr w s e) s) x = sigGet w x := by
      intro x hx
      rw [sigGet_setSigAborted_ne _ _ _ hx, sigGet_setSigErr_ne _ _ _ _ hx]
    have hwo_b : WrapperOnly (setSigAborted (setSigErr w s e) s) :=
      wrapperOnly_setSigAborted (wrapperOnly_setSigErr hwo)
    obtain ⟨w1, h1ne, h1s, h1wo, h1ls, h1cont⟩ :=
      benign_dispatch pre s (childPart s (s2 :: rest2)) (setSigAborted (setSigErr w s e) s)
        hpre hwo_b
        (by rw [sigListeners_of_get hgb_s]; exact hshape)
        (hshape ▸ hndl)
    have h1s_val : sigGet w1 s = some ⟨some e, true, childPart s (s2 :: rest2)⟩ := by
      rw [h1s, hgb_s]; rfl
    have h1ne_w : ∀ x, x ≠ s → sigGet w1 x = sigGet w x := by
      intro x hx
      rw [h1ne x hx]; exact hgb_ne x hx
    -- the listener snapshot tail is the propagation wrapper for s2
    have hch_mem : (FnCode.wrapper s (.cancelHandler s s2)) ∈ sigListeners w1 s := by
      rw [h1ls]; exact List.mem_cons_self _ _
    -- removing it (once semantics) before invoking
    have hrm_s : sigGet (removeListener w1 s (.wrapper s (.cancelHandler s s2))) s =
        some ⟨some e, true, []⟩ := by
      rw [sigGet_removeListener_self, h1s_val]
      have hfil : (childPart s (s2 :: rest2)).filter
          (fun g => decide (g ≠ FnCode.wrapper s (.cancelHandler s s2))) = [] :=
        filter_ne_cons_self (by simp [childPart])
      exact congrArg some (congrArg (SignalSt.mk (some e) true) hfil)
    have hrm_ne : ∀ x, x ≠ s →
        sigGet (removeListener w1 s (.wrapper s (.cancelHandler s s2))) x = sigGet w x := by
      intro x hx
      rw [sigGet_removeListener_ne _ _ _ _ hx]
      exact h1ne_w x hx
    have hwo_rm : WrapperOnly (removeListener w1 s (.wrapper s (.cancelHandler s s2))) :=
      wrapperOnly_removeListener h1wo
    have hch_rest : Chain (removeListener w1 s (.wrapper s (.cancelHandler s s2)))
        (s2 :: rest2) := by
      refine chain_congr ?_ hrest
      intro j hj
      exact hrm_ne j (fun hjs => hs_notin (hjs ▸ hj))
    obtain ⟨n0, w2, hrun0, hprops, hframe, hwo2⟩ :=
      ih (removeListener w1 s (.wrapper s (.cancelHandler s s2))) s2 e
        hch_rest hnd_rest hwo_rm
    -- the handler reads the parent's error at invocation time
    have herr_rm : sigErr (removeListener w1 s (.wrapper s (.cancelHandler s s2))) s =
        some e := sigErr_of_get hrm_s
    have hdisp : run (n0 + 4) w1 (.dispatchAbort s [.wrapper s (.cancelHandler s s2)]) =
        some w2 := by
      show run ((n0 + 3) + 1) w1 (.dispatchAbort s [.wrapper s (.cancelHandler s s2)]) = some w2
      rw [run_dispatch_cons, if_pos hch_mem]
      have hinv : run (n0 + 3) (removeListener w1 s (.wrapper s (.cancelHandler s s2)))
          (.invoke (.wrapper s (.cancelHandler s s2)) none) = some w2 := by
        show run ((n0 + 2) + 1) _ _ = some w2
        rw [run_invoke_wrapper]
        show run ((n0 + 1) + 1) _ _ = some w2
        rw [run_invoke_cancelHandler, herr_rm]
        exact run_mono (by omega : n0 ≤ n0 + 1) hrun0
      rw [hinv]
      exact run_dispatch_nil _ _ _
    obtain ⟨m, hm⟩ := h1cont (n0 + 4) w2 hdisp
    refine ⟨m + 2, w2, ?_, ?_, ?_, hwo2⟩
    · show run ((m + 1) + 1) w (.cancelSig s e) = some w2
      rw [run_cancelSig, run_abortSig, if_neg (by rw [hab_a]; exact Bool.false_ne_true)]
      have hlsa : sigListeners (setSigErr w s e) s = pre ++ childPart s (s2 :: rest2) := by
        rw [sigListeners_of_get hga_s]; exact hshape
      rw [hlsa]
      exact hm
    · intro j hj
      rcases List.mem_cons.mp hj with hjs | hjr
      · subst hjs
        have hs2 : sigGet w2 j = some ⟨some e, true, []⟩ := by
          rw [hframe j hs_notin]
          exact hrm_s
        exact ⟨sigErr_of_get hs2, sigAborted_of_get hs2⟩
      · exact hprops j hjr
    · intro x hx
      have hxs : x ≠ s := fun h2 => hx (h2 ▸ List.mem_cons_self _ _)
      have hxr : x ∉ s2 :: rest2 := fun h2 => hx (List.mem_cons_of_mem _ h2)
      rw [hframe x hxr]
      exact hrm_ne x hxs

/-! ## Worlds built by the constructors -/

/-- Every allocated signal id is below the allocation counter. -/
def SigsBelow (w : World) : Prop := ∀ pr ∈ w.sigs, pr.1 < w.nextSig

theorem assocGet_mem {α : Type} {l : List (Nat × α)} {i : Nat} {a : α}
    (h : assocGet l i = some a) : (i, a) ∈ l := by
  induction l with
  | nil => exact absurd h (by simp [assocGet])
  | cons hd tl ih =>
    obtain ⟨j, b⟩ := hd
    by_cases hj : j = i
    · subst hj
      simp [assocGet] at h
      simp [h]
    · simp [assocGet, hj] at h
      exact List.mem_cons_of_mem _ (ih h)

theorem assocUpd_mem {α : Type} {l : List (Nat × α)} {i : Nat} {f : α → α} {j : Nat} {b : α}
    (h : (j, b) ∈ assocUpd l i f) : ∃ a, (j, a) ∈ l := by
  induction l with
  | nil => exact absurd h (by simp [assocUpd])
  | cons hd tl ih =>
    obtain ⟨k, a0⟩ := hd
    by_cases hk : k = i
    · subst hk
      simp only [assocUpd, if_pos rfl] at h
      rcases List.mem_cons.mp h with h2 | h2
      · have hjk : j = k := congrArg Prod.fst h2
        exact ⟨a0, by rw [hjk]; exact List.mem_cons_self _ _⟩
      · exact ⟨b, List.mem_cons_of_mem _ h2⟩
    · simp only [assocUpd, if_neg hk] at h
      rcases List.mem_cons.mp h with h2 | h2
      · have hjk : j = k := congrArg Prod.fst h2
        exact ⟨a0, by rw [hjk]; exact List.mem_cons_self _ _⟩
      · obtain ⟨a, ha⟩ := ih h2
        exact ⟨a, List.mem_cons_of_mem _ ha⟩

theorem sigsBelow_updSig {w : World} {i : Nat} {f : SignalSt → SignalSt}
    (hsb : SigsBelow w) : SigsBelow (updSig w i f) := by
  intro pr hpr
  obtain ⟨j, b⟩ := pr
  obtain ⟨a, ha⟩ := assocUpd_mem hpr
  exact hsb (j, a) ha

theorem sigGet_fresh_none {w : World} (hsb : SigsBelow w) : sigGet w w.nextSig = none := by
  cases h : sigGet w w.nextSig with
  | none => rfl
  | some st => exact absurd (hsb _ (assocGet_mem h)) (lt_irrefl _)

theorem sigGet_newSignal_self {w : World} (hsb : SigsBelow w) :
    sigGet (newSignal w).1 w.nextSig = some ⟨none, false, []⟩ := by
  show assocGet (w.sigs ++ [(w.nextSig, ⟨none, false, []⟩)]) w.nextSig = _
  have h0 : assocGet w.sigs w.nextSig = none := sigGet_fresh_none hsb
  rw [assocGet_append, h0]
  simp [assocGet]

theorem sigGet_newSignal_ne {w : World} (x : Nat) (hx : x ≠ w.nextSig) :
    sigGet (newSignal w).1 x = sigGet w x := by
  show assocGet (w.sigs ++ [(w.nextSig, ⟨none, false, []⟩)]) x = _
  rw [assocGet_append]
  show _ = assocGet w.sigs x
  cases h : assocGet w.sigs x with
  | some st => rfl
  | none => simp [assocGet, Ne.symm hx]

theorem sigListeners_congr {w1 w2 : World} {i : Nat} (h : sigGet w2 i = sigGet w1 i) :
    sigListeners w2 i = sigListeners w1 i := by
  unfold sigListeners
  rw [h]

theorem sigsBelow_newSignal {w : World} (hsb : SigsBelow w) : SigsBelow (newSignal w).1 := by
  intro pr hpr
  have : pr ∈ w.sigs ++ [(w.nextSig, (⟨none, false, []⟩ : SignalSt))] := hpr
  rcases List.mem_append.mp this with h2 | h2
  · exact Nat.lt_succ_of_lt (hsb pr h2)
  · simp at h2
    subst h2
    exact Nat.lt_succ_self _

theorem wrapperOnly_newSignal {w : World} (hwo : WrapperOnly w) (hsb : SigsBelow w) :
    WrapperOnly (newSignal w).1 := by
  intro i f hf
  by_cases hx : i = w.nextSig
  · subst hx
    rw [sigListeners_of_get (sigGet_newSignal_self hsb)] at hf
    exact absurd hf (by simp)
  · rw [sigListeners_congr (sigGet_newSignal_ne i hx)] at hf
    exact hwo i f hf

theorem wrapperOnly_addListener_wrapper {w : World} {i a : Nat} {b : FnCode}
    (hwo : WrapperOnly w) : WrapperOnly (addListener w i (.wrapper a b)) := by
  intro j g hg
  by_cases hj : j = i
  · subst hj
    unfold sigListeners at hg
    rw [sigGet_addListener_self] at hg
    cases h2 : sigGet w j with
    | none => rw [h2] at hg; exact absurd hg (by simp)
    | some st =>
      rw [h2] at hg
      rcases (by simpa using hg : g ∈ st.listeners ∨ g = FnCode.wrapper a b) with h3 | h3
      · exact hwo j g (by rw [sigListeners_of_get h2]; exact h3)
      · subst h3
        rfl
  · rw [sigListeners_congr (sigGet_addListener_ne _ _ _ _ hj)] at hg
    exact hwo j g hg

theorem onCanceled_not_aborted {fuel : Nat} {w : World} {i : Nat} {fn : FnCode}
    (h : sigAborted w i = false) :
    onCanceled fuel w i fn = some (addListener w i (.wrapper i fn)) := by
  simp [onCanceled, h]

theorem newSignal_snd (w : World) : (newSignal w).2 = w.nextSig := rfl

theorem sigGet_armTimer (w : World) (d : Nat) (act : TimerAct) (i : Nat) :
    sigGet (armTimer w d act).1 i = sigGet w i := rfl

/-- The `WithCancel` constructor over a cancelable, not-yet-fired parent `p`:
it returns the fresh signal id `w.nextSig`, whose state carries exactly the
teardown wrapper, appends the propagation wrapper to `p`'s listeners, and
touches nothing else. -/
theorem withCancelMk_someP_spec (fuel : Nat) (w : World) (p : Nat) (stp : SignalSt)
    (hwo : WrapperOnly w) (hsb : SigsBelow w)
    (hp : sigGet w p = some stp) (hpab : stp.aborted = false) :
    ∃ w1, withCancelMk fuel w (some p) = some (w1, w.nextSig) ∧
      sigGet w1 w.nextSig =
        some ⟨none, false,
          [.wrapper w.nextSig (.removeHandler p (.cancelHandler p w.nextSig))]⟩ ∧
      sigGet w1 p =
        some ⟨stp.error, stp.aborted,
          stp.listeners ++ [.wrapper p (.cancelHandler p w.nextSig)]⟩ ∧
      (∀ x, x ≠ p → x ≠ w.nextSig → sigGet w1 x = sigGet w x) ∧
      WrapperOnly w1 ∧ SigsBelow w1 ∧ w1.nextSig = w.nextSig + 1 ∧
      w1.timers = w.timers ∧ w1.nextTimer = w.nextTimer ∧ w1.now = w.now := by
  have hplt : p < w.nextSig := hsb _ (assocGet_mem hp)
  have hps : p ≠ w.nextSig := Nat.ne_of_lt hplt
  have h1s := sigGet_newSignal_self hsb
  have h1p : sigGet (newSignal w).1 p = some stp := by
    rw [sigGet_newSignal_ne p hps]; exact hp
  have hab1 : sigAborted (newSignal w).1 p = false := by
    rw [sigAborted_of_get h1p]; exact hpab
  have h2s : sigGet (addListener (newSignal w).1 p
      (.wrapper p (.cancelHandler p w.nextSig))) w.nextSig = some ⟨none, false, []⟩ := by
    rw [sigGet_addListener_ne _ _ _ _ (Ne.symm hps)]; exact h1s
  have hab2s : sigAborted (addListener (newSignal w).1 p
      (.wrapper p (.cancelHandler p w.nextSig))) w.nextSig = false := by
    rw [sigAborted_of_get h2s]
  refine ⟨addListener (addListener (newSignal w).1 p (.wrapper p (.cancelHandler p w.nextSig)))
      w.nextSig (.wrapper w.nextSig (.removeHandler p (.cancelHandler p w.nextSig))),
    ?_, ?_, ?_, ?_, ?_, ?_, rfl, rfl, rfl, rfl⟩
  · show withCancelWire fuel w p = _
    unfold withCancelWire
    rw [newSignal_snd]
    simp only [onCanceled_not_aborted hab1, onCanceled_not_aborted hab2s]
  · rw [sigGet_addListener_self, h2s]
    rfl
  · rw [sigGet_addListener_ne _ _ _ _ hps, sigGet_addListener_self, h1p]
    rfl
  · intro x hxp hxs
    rw [sigGet_addListener_ne _ _ _ _ hxs, sigGet_addListener_ne _ _ _ _ hxp,
      sigGet_newSignal_ne x hxs]
  · exact wrapperOnly_addListener_wrapper
      (wrapperOnly_addListener_wrapper (wrapperOnly_newSignal hwo hsb))
  · exact sigsBelow_updSig (sigsBelow_updSig (sigsBelow_newSignal hsb))

/-- The `WithCancel` constructor over `Background` (no parent signal): only a
fresh unfired signal with no listeners is allocated. -/
theorem withCancelMk_none_spec (fuel : Nat) (w : World)
    (hwo : WrapperOnly w) (hsb : SigsBelow w) :
    ∃ w1, withCancelMk fuel w none = some (w1, w.nextSig) ∧
      sigGet w1 w.nextSig = some ⟨none, false, []⟩ ∧
      (∀ x, x ≠ w.nextSig → sigGet w1 x = sigGet w x) ∧
      WrapperOnly w1 ∧ SigsBelow w1 ∧ w1.nextSig = w.nextSig + 1 ∧
      w1.timers = w.timers ∧ w1.nextTimer = w.nextTimer ∧ w1.now = w.now := by
  exact ⟨(newSignal w).1, rfl, sigGet_newSignal_self hsb, fun x hx => sigGet_newSignal_ne x hx,
    wrapperOnly_newSignal hwo hsb, sigsBelow_newSignal hsb, rfl, rfl, rfl, rfl⟩

/-- Constructing either cancelable node kind over a cancelable, unfired parent
signal `p`: a fresh signal with a benign listener prefix is allocated and the
propagation wrapper is appended to `p`'s listeners. -/
theorem mkNodeSome_spec (fuel : Nat) (w : World) (k : NodeKind) (p : Nat) (stp : SignalSt)
    (hwo : WrapperOnly w) (hsb : SigsBelow w)
    (hp : sigGet w p = some stp) (hpab : stp.aborted = false) :
    ∃ w1 pre,
      mkNode fuel w (some p) k = some (w1, w.nextSig) ∧
      sigGet w1 w.nextSig = some ⟨none, false, pre⟩ ∧
      (∀ f ∈ pre, BenignFn f) ∧ pre.Nodup ∧
      (∀ f ∈ pre, ∀ a b, f ≠ FnCode.wrapper w.nextSig (.cancelHandler a b)) ∧
      sigGet w1 p = some ⟨stp.error, stp.aborted,
        stp.listeners ++ [.wrapper p (.cancelHandler p w.nextSig)]⟩ ∧
      (∀ x, x ≠ p → x ≠ w.nextSig → sigGet w1 x = sigGet w x) ∧
      WrapperOnly w1 ∧ SigsBelow w1 ∧ w1.nextSig = w.nextSig + 1 := by
  obtain ⟨wc, heq, hs, hpp, hfr, hwoc, hsbc, hns, htm, hnt, hnow⟩ :=
    withCancelMk_someP_spec fuel w p stp hwo hsb hp hpab
  cases k with
  | cancelable =>
    refine ⟨wc, [.wrapper w.nextSig (.removeHandler p (.cancelHandler p w.nextSig))],
      heq, hs, ?_, by simp, ?_, hpp, hfr, hwoc, hsbc, hns⟩
    · intro f hf
      simp only [List.mem_singleton] at hf
      subst hf
      show isWrapperFn (FnCode.cancelHandler p w.nextSig) = false
      rfl
    · intro f hf a b
      simp only [List.mem_singleton] at hf
      subst hf
      simp
  | timeout ms =>
    have hsarm : sigGet (armTimer wc ms (.fireDeadline w.nextSig)).1 w.nextSig =
        some ⟨none, false,
          [.wrapper w.nextSig (.removeHandler p (.cancelHandler p w.nextSig))]⟩ := by
      rw [sigGet_armTimer]; exact hs
    have habarm : sigAborted (armTimer wc ms (.fireDeadline w.nextSig)).1 w.nextSig = false := by
      rw [sigAborted_of_get hsarm]
    refine ⟨addListener (armTimer wc ms (.fireDeadline w.nextSig)).1 w.nextSig
        (.wrapper w.nextSig (.clearTimeoutFn (armTimer wc ms (.fireDeadline w.nextSig)).2)),
      [.wrapper w.nextSig (.removeHandler p (.cancelHandler p w.nextSig)),
       .wrapper w.nextSig (.clearTimeoutFn (armTimer wc ms (.fireDeadline w.nextSig)).2)],
      ?_, ?_, ?_, ?_, ?_, ?_, ?_, ?_, ?_, ?_⟩
    · show withTimeoutMk fuel w (some p) ms = _
      unfold withTimeoutMk
      simp only [heq, onCanceled_not_aborted habarm]
    · rw [sigGet_addListener_self, hsarm]
      rfl
    · intro f hf
      rcases List.mem_cons.mp hf with h2 | h2
      · subst h2
        show isWrapperFn (FnCode.cancelHandler p w.nextSig) = false
        rfl
      · simp only [List.mem_singleton] at h2
        subst h2
        trivial
    · simp
    · intro f hf a b
      rcases List.mem_cons.mp hf with h2 | h2
      · subst h2; simp
      · simp only [List.mem_singleton] at h2
        subst h2; simp
    · rw [sigGet_addListener_ne _ _ _ _ (fun h2 => absurd (hsb _ (assocGet_mem hp))
        (by rw [h2]; exact lt_irrefl _)), sigGet_armTimer]
      exact hpp
    · intro x hxp hxs
      rw [sigGet_addListener_ne _ _ _ _ hxs, sigGet_armTimer]
      exact hfr x hxp hxs
    · exact wrapperOnly_addListener_wrapper
        (wrapperOnly_of_pointwise (fun i => sigGet_armTimer wc ms _ i) hwoc)
    · exact sigsBelow_updSig hsbc
    · exact hns

/-- Constructing either cancelable node kind over `Background`: only a fresh
unfired signal (with at most a `clearTimeout` wrapper) is allocated. -/
theorem mkNodeNone_spec (fuel : Nat) (w : World) (k : NodeKind)
    (hwo : WrapperOnly w) (hsb : SigsBelow w) :
    ∃ w1 pre,
      mkNode fuel w none k = some (w1, w.nextSig) ∧
      sigGet w1 w.nextSig = some ⟨none, false, pre⟩ ∧
      (∀ f ∈ pre, BenignFn f) ∧ pre.Nodup ∧
      (∀ f ∈ pre, ∀ a b, f ≠ FnCode.wrapper w.nextSig (.cancelHandler a b)) ∧
      (∀ x, x ≠ w.nextSig → sigGet w1 x = sigGet w x) ∧
      WrapperOnly w1 ∧ SigsBelow w1 ∧ w1.nextSig = w.nextSig + 1 := by
  obtain ⟨wc, heq, hs, hfr, hwoc, hsbc, hns, htm, hnt, hnow⟩ :=
    withCancelMk_none_spec fuel w hwo hsb
  cases k with
  | cancelable =>
    exact ⟨wc, [], heq, hs, by simp, by simp, by simp, hfr, hwoc, hsbc, hns⟩
  | timeout ms =>
    have hsarm : sigGet (armTimer wc ms (.fireDeadline w.nextSig)).1 w.nextSig =
        some ⟨none, false, []⟩ := by
      rw [sigGet_armTimer]; exact hs
    have habarm : sigAborted (armTimer wc ms (.fireDeadline w.nextSig)).1 w.nextSig = false := by
      rw [sigAborted_of_get hsarm]
    refine ⟨addListener (armTimer wc ms (.fireDeadline w.nextSig)).1 w.nextSig
        (.wrapper w.nextSig (.clearTimeoutFn (armTimer wc ms (.fireDeadline w.nextSig)).2)),
      [.wrapper w.nextSig (.clearTimeoutFn (armTimer wc ms (.fireDeadline w.nextSig)).2)],
      ?_, ?_, ?_, by simp, ?_, ?_, ?_, ?_, ?_⟩
    · show withTimeoutMk fuel w none ms = _
      unfold withTimeoutMk
      simp only [heq, onCanceled_not_aborted habarm]
    · rw [sigGet_addListener_self, hsarm]
      rfl
    · intro f hf
      simp only [List.mem_singleton] at hf
      subst hf
      trivial
    · intro f hf a b
      simp only [List.mem_singleton] at hf
      subst hf
      simp
    · intro x hxs
      rw [sigGet_addListener_ne _ _ _ _ hxs, sigGet_armTimer]
      exact hfr x hxs
    · exact wrapperOnly_addListener_wrapper
        (wrapperOnly_of_pointwise (fun i => sigGet_armTimer wc ms _ i) hwoc)
    · exact sigsBelow_updSig hsbc
    · exact hns

/-- Building a chain of cancelable nodes over a cancelable, unfired parent
signal `p` yields a `Chain`-shaped world: fresh, pairwise distinct signal ids,
each node wired to the next, and only `p`'s listener list touched among the
pre-existing signals. -/
theorem buildChain_some_spec :
    ∀ (ks : List NodeKind) (fuel : Nat) (w : World) (p : Nat) (stp : SignalSt),
      WrapperOnly w → SigsBelow w → sigGet w p = some stp → stp.aborted = false →
      ∃ w2 ss, buildChain fuel w (some p) ks = some (w2, ss) ∧
        ss.length = ks.length ∧
        (∀ j ∈ ss, w.nextSig ≤ j) ∧
        ss.Nodup ∧
        Chain w2 ss ∧
        WrapperOnly w2 ∧ SigsBelow w2 ∧
        w2.nextSig = w.nextSig + ks.length ∧
        (∀ x, x ≠ p → x ∉ ss → sigGet w2 x = sigGet w x) ∧
        ((ss = [] ∧ w2 = w) ∨
          (∃ s1 stail, ss = s1 :: stail ∧ s1 = w.nextSig ∧
            sigGet w2 p = some ⟨stp.error, stp.aborted,
              stp.listeners ++ [.wrapper p (.cancelHandler p s1)]⟩)) := by
  intro ks
  induction ks with
  | nil =>
    intro fuel w p stp hwo hsb hp hpab
    exact ⟨w, [], rfl, rfl, by simp, by simp, Chain.nil w, hwo, hsb, by simp,
      fun x _ _ => rfl, Or.inl ⟨rfl, rfl⟩⟩
  | cons k ks2 ih =>
    intro fuel w p stp hwo hsb hp hpab
    obtain ⟨w1, pre, heq1, hs1, hben, hnod, hnoch, hp1, hfr1, hwo1, hsb1, hns1⟩ :=
      mkNodeSome_spec fuel w k p stp hwo hsb hp hpab
    obtain ⟨w2, ss2, heq2, hlen2, hlb2, hnd2, hch2, hwo2, hsb2, hns2, hfr2, hpar2⟩ :=
      ih fuel w1 w.nextSig ⟨none, false, pre⟩ hwo1 hsb1 hs1 rfl
    have hp_lt : p < w.nextSig := hsb _ (assocGet_mem hp)
    have hps : p ≠ w.nextSig := Nat.ne_of_lt hp_lt
    have hsnot : w.nextSig ∉ ss2 := by
      intro hmem
      have := hlb2 _ hmem
      rw [hns1] at this
      omega
    have hpnot : p ∉ ss2 := by
      intro hmem
      have := hlb2 _ hmem
      rw [hns1] at this
      omega
    refine ⟨w2, w.nextSig :: ss2, ?_, ?_, ?_, ?_, ?_, hwo2, hsb2, ?_, ?_, ?_⟩
    · show buildChain fuel w (some p) (k :: ks2) = _
      unfold buildChain
      simp only [heq1, heq2]
    · simp [hlen2]
    · intro j hj
      rcases List.mem_cons.mp hj with h2 | h2
      · omega
      · have := hlb2 _ h2
        rw [hns1] at this
        omega
    · exact List.nodup_cons.mpr ⟨hsnot, hnd2⟩
    · -- the chain shape of the new head
      rcases hpar2 with ⟨hss2, hw2⟩ | ⟨s2, stail, hsseq, hs2eq, hp2⟩
      · subst hss2
        subst hw2
        refine Chain.cons _ _ _ ⟨none, false, pre⟩ pre hs1 rfl rfl hben ?_ hnod (Chain.nil _)
        show pre = pre ++ childPart w.nextSig ([] : List Nat)
        simp [childPart]
      · subst hsseq
        refine Chain.cons _ _ _ ⟨none, false,
            pre ++ [.wrapper w.nextSig (.cancelHandler w.nextSig s2)]⟩
          pre hp2 rfl rfl hben rfl ?_ hch2
      -- Nodup of pre ++ propagation wrapper
        refine List.Nodup.append hnod (by simp) ?_
        intro a ha hb
        simp only [List.mem_singleton] at hb
        exact hnoch a ha w.nextSig s2 hb
    · rw [hns2, hns1]
      simp [List.length_cons]
      omega
    · intro x hxp hxs
      have hxne : x ≠ w.nextSig := fun h2 => hxs (h2 ▸ List.mem_cons_self _ _)
      have hxn2 : x ∉ ss2 := fun h2 => hxs (List.mem_cons_of_mem _ h2)
      rw [hfr2 x hxne hxn2]
      exact hfr1 x hxp hxne
    · refine Or.inr ⟨w.nextSig, ss2, rfl, rfl, ?_⟩
      rw [hfr2 p hps hpnot]
      exact hp1

/-- Building a chain of cancelable nodes over `Background` (no parent signal). -/
theorem buildChain_none_spec (ks : List NodeKind) (fuel : Nat) (w : World)
    (hwo : WrapperOnly w) (hsb : SigsBelow w) :
    ∃ w2 ss, buildChain fuel w none ks = some (w2, ss) ∧
      ss.length = ks.length ∧
      (∀ j ∈ ss, w.nextSig ≤ j) ∧
      ss.Nodup ∧
      Chain w2 ss ∧
      WrapperOnly w2 ∧ SigsBelow w2 ∧
      (∀ x, x ∉ ss → sigGet w2 x = sigGet w x) := by
  cases ks with
  | nil =>
    exact ⟨w, [], rfl, rfl, by simp, by simp, Chain.nil w, hwo, hsb, fun x _ => rfl⟩
  | cons k ks2 =>
    obtain ⟨w1, pre, heq1, hs1, hben, hnod, hnoch, hfr1, hwo1, hsb1, hns1⟩ :=
      mkNodeNone_spec fuel w k hwo hsb
    obtain ⟨w2, ss2, heq2, hlen2, hlb2, hnd2, hch2, hwo2, hsb2, hns2, hfr2, hpar2⟩ :=
      buildChain_some_spec ks2 fuel w1 w.nextSig ⟨none, false, pre⟩ hwo1 hsb1 hs1 rfl
    have hsnot : w.nextSig ∉ ss2 := by
      intro hmem
      have := hlb2 _ hmem
      rw [hns1] at this
      omega
    refine ⟨w2, w.nextSig :: ss2, ?_, ?_, ?_, ?_, ?_, hwo2, hsb2, ?_⟩
    · show buildChain fuel w none (k :: ks2) = _
      unfold buildChain
      simp only [heq1, heq2]
    · simp [hlen2]
    · intro j hj
      rcases List.mem_cons.mp hj with h2 | h2
      · omega
      · have := hlb2 _ h2
        rw [hns1] at this
        omega
    · exact List.nodup_cons.mpr ⟨hsnot, hnd2⟩
    · rcases hpar2 with ⟨hss2, hw2⟩ | ⟨s2, stail, hsseq, hs2eq, hp2⟩
      · subst hss2
        subst hw2
        refine Chain.cons _ _ _ ⟨none, false, pre⟩ pre hs1 rfl rfl hben ?_ hnod (Chain.nil _)
        show pre = pre ++ childPart w.nextSig ([] : List Nat)
        simp [childPart]
      · subst hsseq
        refine Chain.cons _ _ _ ⟨none, false,
            pre ++ [.wrapper w.nextSig (.cancelHandler w.nextSig s2)]⟩
          pre hp2 rfl rfl hben rfl ?_ hch2
        refine List.Nodup.append hnod (by simp) ?_
        intro a ha hb
        simp only [List.mem_singleton] at hb
        exact hnoch a ha w.nextSig s2 hb
    · intro x hxs
      have hxne : x ≠ w.nextSig := fun h2 => hxs (h2 ▸ List.mem_cons_self _ _)
      have hxn2 : x ∉ ss2 := fun h2 => hxs (List.mem_cons_of_mem _ h2)
      rw [hfr2 x hxne hxn2]
      exact hfr1 x hxne

theorem wrapperOnly_empty : WrapperOnly emptyWorld := by
  intro i f hf
  exact absurd hf (by simp [sigListeners, sigGet, emptyWorld, assocGet])

theorem sigsBelow_empty : SigsBelow emptyWorld := by
  intro pr hpr
  exact absurd hpr (by simp [emptyWorld])

theorem onCanceled_aborted {fuel : Nat} {w : World} {i : Nat} {fn : FnCode}
    (h : sigAborted w i = true) :
    onCanceled fuel w i fn = run fuel w (.invoke fn (sigErr w i)) := by
  simp [onCanceled, h]

theorem assocDel_append_fresh {α : Type} (l : List (Nat × α)) (n : Nat) (x : α)
    (h : ∀ pr ∈ l, pr.1 ≠ n) : assocDel (l ++ [(n, x)]) n = l := by
  induction l with
  | nil => simp [assocDel]
  | cons hd tl ih =>
    obtain ⟨j, a⟩ := hd
    have hj : j ≠ n := h (j, a) (List.mem_cons_self _ _)
    show assocDel ((j, a) :: (tl ++ [(n, x)])) n = (j, a) :: tl
    simp only [assocDel, if_neg hj]
    exact congrArg (List.cons (j, a)) (ih (fun pr hpr => h pr (List.mem_cons_of_mem _ hpr)))

/-! ## Claim theorems -/

/-- C1: for every chain `Background → A1 → … → An` built only from
`WithCancel`/`WithTimeout` constructors, calling `cancel()` on `A1` eventually
records `Canceled` as `error()` on every `Ai` and makes every `Ai`'s done
signal report `aborted = true`; each node fires with exactly the cause its
parent recorded (here, `Canceled` all the way down). -/
theorem C1_cancel_propagates_down_chain (ks : List NodeKind) (fuel : Nat)
    (hne : ks ≠ []) :
    ∃ w0 s1 stail n w2,
      buildChain fuel emptyWorld none ks = some (w0, s1 :: stail) ∧
      cancelCtx n w0 s1 = some w2 ∧
      (∀ j ∈ s1 :: stail, sigErr w2 j = some .canceled ∧ sigAborted w2 j = true) := by
  obtain ⟨w0, ss, heq, hlen, hlb, hnd, hch, hwo, hsb, hfr⟩ :=
    buildChain_none_spec ks fuel emptyWorld wrapperOnly_empty sigsBelow_empty
  cases ss with
  | nil =>
    exact absurd (List.length_eq_zero.mp hlen.symm) hne
  | cons s1 stail =>
    obtain ⟨n, w2, hrun, hprops, _, _⟩ := cancel_chain stail w0 s1 .canceled hch hnd hwo
    exact ⟨w0, s1, stail, n, w2, heq, hrun, hprops⟩

theorem C1_cancel_propagates_down_chain_witness :
    ([NodeKind.cancelable, NodeKind.timeout 7, NodeKind.cancelable] ≠ []) ∧
    (∃ w0 s1 stail n w2,
      buildChain 0 emptyWorld none
        [NodeKind.cancelable, NodeKind.timeout 7, NodeKind.cancelable] =
        some (w0, s1 :: stail) ∧
      cancelCtx n w0 s1 = some w2 ∧
      (∀ j ∈ s1 :: stail, sigErr w2 j = some .canceled ∧ sigAborted w2 j = true)) :=
  ⟨by decide, C1_cancel_propagates_down_chain
    [NodeKind.cancelable, NodeKind.timeout 7, NodeKind.cancelable] 0 (by decide)⟩

/-- C8: canceling a freshly derived child affects only that child: the
parent's recorded cause and fired flag are unchanged (in particular an
unfired parent stays unfired), and a sibling derived from the same parent
stays unfired with no recorded cause, while the canceled child itself
records `Canceled`. -/
theorem C8_cancel_never_reaches_parent_or_sibling (fuel : Nat) (w : World) (p : Nat)
    (stp : SignalSt) (k1 k2 : NodeKind) (hwo : WrapperOnly w) (hsb : SigsBelow w)
    (hp : sigGet w p = some stp) (hpab : stp.aborted = false) :
    ∃ w1 c w2 c2 n w3,
      mkNode fuel w (some p) k1 = some (w1, c) ∧
      mkNode fuel w1 (some p) k2 = some (w2, c2) ∧
      cancelCtx n w2 c = some w3 ∧
      sigErr w3 c = some .canceled ∧ sigAborted w3 c = true ∧
      sigErr w3 p = stp.error ∧ sigAborted w3 p = false ∧
      sigErr w3 c2 = none ∧ sigAborted w3 c2 = false := by
  obtain ⟨w1, pre1, heq1, hs1, hben1, hnod1, hnoch1, hp1, hfr1, hwo1, hsb1, hns1⟩ :=
    mkNodeSome_spec fuel w k1 p stp hwo hsb hp hpab
  obtain ⟨w2, pre2, heq2, hs2, hben2, hnod2, hnoch2, hp2, hfr2, hwo2, hsb2, hns2⟩ :=
    mkNodeSome_spec fuel w1 k2 p
      ⟨stp.error, stp.aborted, stp.listeners ++ [.wrapper p (.cancelHandler p w.nextSig)]⟩
      hwo1 hsb1 hp1 hpab
  have hplt : p < w.nextSig := hsb _ (assocGet_mem hp)
  have hpc : p ≠ w.nextSig := Nat.ne_of_lt hplt
  have hcc2 : w.nextSig ≠ w1.nextSig := by rw [hns1]; omega
  have hc_w2 : sigGet w2 w.nextSig = some ⟨none, false, pre1⟩ := by
    rw [hfr2 _ (Ne.symm hpc) hcc2]
    exact hs1
  have hch : Chain w2 [w.nextSig] := by
    refine Chain.cons _ _ _ ⟨none, false, pre1⟩ pre1 hc_w2 rfl rfl hben1 ?_ hnod1 (Chain.nil _)
    show pre1 = pre1 ++ childPart w.nextSig ([] : List Nat)
    simp [childPart]
  obtain ⟨n, w3, hrun, hprops, hframe, _⟩ :=
    cancel_chain [] w2 w.nextSig .canceled hch (by simp) hwo2
  have hp3 : sigGet w3 p = some ⟨stp.error, stp.aborted,
      (stp.listeners ++ [.wrapper p (.cancelHandler p w.nextSig)]) ++
        [.wrapper p (.cancelHandler p w1.nextSig)]⟩ := by
    rw [hframe p (by simp [hpc])]
    exact hp2
  have hc2_3 : sigGet w3 w1.nextSig = some ⟨none, false, pre2⟩ := by
    rw [hframe _ (by simp [Ne.symm hcc2])]
    exact hs2
  refine ⟨w1, w.nextSig, w2, w1.nextSig, n, w3, heq1, heq2, hrun,
    (hprops _ (by simp)).1, (hprops _ (by simp)).2, ?_, ?_, ?_, ?_⟩
  · rw [sigErr_of_get hp3]
  · rw [sigAborted_of_get hp3]
    exact hpab
  · rw [sigErr_of_get hc2_3]
  · rw [sigAborted_of_get hc2_3]

theorem C8_cancel_never_reaches_parent_or_sibling_witness :
    WrapperOnly ⟨[(0, ⟨none, false, []⟩)], 1, [], 0, [], 0, 0⟩ ∧
    SigsBelow ⟨[(0, ⟨none, false, []⟩)], 1, [], 0, [], 0, 0⟩ ∧
    sigGet ⟨[(0, ⟨none, false, []⟩)], 1, [], 0, [], 0, 0⟩ 0 =
      some ⟨none, false, []⟩ ∧
    (⟨none, false, []⟩ : SignalSt).aborted = false ∧
    (∃ w1 c w2 c2 n w3,
      mkNode 5 ⟨[(0, ⟨none, false, []⟩)], 1, [], 0, [], 0, 0⟩ (some 0) .cancelable =
        some (w1, c) ∧
      mkNode 5 w1 (some 0) (.timeout 7) = some (w2, c2) ∧
      cancelCtx n w2 c = some w3 ∧
      sigErr w3 c = some .canceled ∧ sigAborted w3 c = true ∧
      sigErr w3 0 = (⟨none, false, []⟩ : SignalSt).error ∧ sigAborted w3 0 = false ∧
      sigErr w3 c2 = none ∧ sigAborted w3 c2 = false) := by
  have hwo : WrapperOnly ⟨[(0, ⟨none, false, []⟩)], 1, [], 0, [], 0, 0⟩ :=
    wrapperOnly_newSignal wrapperOnly_empty sigsBelow_empty
  have hsb : SigsBelow ⟨[(0, ⟨none, false, []⟩)], 1, [], 0, [], 0, 0⟩ :=
    sigsBelow_newSignal sigsBelow_empty
  exact ⟨hwo, hsb, by decide, by decide,
    C8_cancel_never_reaches_parent_or_sibling 5 _ 0 ⟨none, false, []⟩ .cancelable
      (.timeout 7) hwo hsb (by decide) rfl⟩

/-- C5: For the chain `Background → WithValue(K, V1) → WithValue(K, V2)`
(with `K` a key that is strictly equal to itself, i.e. not `NaN` — cf. C10),
`value(K)` at the tail returns `V2`, `value(K)` at the middle node returns
`V1`, and for every key that no binding of an arbitrary chain matches,
`value` of that key returns `null` at every node. -/
theorem C5_value_shadowing (K V1 V2 : JSVal) (ls : List Layer) (key : JSVal)
    (hK : strictEq K K = true)
    (hunb : ∀ k v, Layer.bindL k v ∈ ls → strictEq k key = false) :
    VCtx.value (.withValue (.withValue .background K V1) K V2) K = some V2 ∧
    VCtx.value (.withValue .background K V1) K = some V1 ∧
    VCtx.value (stackCtx ls) key = none := by
  refine ⟨?_, ?_, stackCtx_value_unbound ls key hunb⟩
  · simp [VCtx.value, hK]
  · simp [VCtx.value, hK]

theorem C5_value_shadowing_witness :
    strictEq (.strv "K") (.strv "K") = true ∧
    (∀ k v, Layer.bindL k v ∈
        [Layer.bindL (.strv "a") (.numv (.fin 3)), Layer.cancelL 0] →
      strictEq k (.strv "zz") = false) ∧
    (VCtx.value (.withValue (.withValue .background (.strv "K") (.numv (.fin 1)))
        (.strv "K") (.numv (.fin 2))) (.strv "K") = some (.numv (.fin 2)) ∧
     VCtx.value (.withValue .background (.strv "K") (.numv (.fin 1))) (.strv "K") =
        some (.numv (.fin 1)) ∧
     VCtx.value (stackCtx [Layer.bindL (.strv "a") (.numv (.fin 3)), Layer.cancelL 0])
        (.strv "zz") = none) := by
  have hunb : ∀ k v, Layer.bindL k v ∈
      [Layer.bindL (.strv "a") (.numv (.fin 3)), Layer.cancelL 0] →
      strictEq k (.strv "zz") = false := by
    intro k v h
    simp only [List.mem_cons, List.mem_singleton] at h
    rcases h with h | h | h
    · obtain ⟨rfl, rfl⟩ := Layer.bindL.inj h
      decide
    · exact absurd h (by simp)
    · exact absurd h (by simp)
  exact ⟨by decide, hunb,
    C5_value_shadowing (.strv "K") (.numv (.fin 1)) (.numv (.fin 2)) _ _ (by decide) hunb⟩

/-- C6: `WithValue` construction throws synchronously exactly when the key is
undefined, null, a structural object, an array, or a function (`isBadKey`),
with the corresponding message, and otherwise creates the node; in particular
the falsy keys `0`, `""` and `false` are accepted.  (`value`/`error`/`done`
are total functions of the embedding: no key error can be raised after
construction.) -/
theorem C6_withValue_key_validation (p : VCtx) (k v : JSVal) :
    withValueMk p k v =
      (if isBadKey k = true then Except.error (keyErrMsg k)
       else Except.ok (VCtx.withValue p k v)) ∧
    withValueMk p (.numv (.fin 0)) v = Except.ok (.withValue p (.numv (.fin 0)) v) ∧
    withValueMk p (.strv "") v = Except.ok (.withValue p (.strv "") v) ∧
    withValueMk p (.boolv false) v = Except.ok (.withValue p (.boolv false) v) := by
  refine ⟨?_, rfl, rfl, rfl⟩
  cases k with
  | numv n => cases n <;> rfl
  | undef => rfl
  | nullv => rfl
  | boolv b => rfl
  | strv s => rfl
  | objv i => rfl
  | arrv i => rfl
  | funcv i => rfl

/-- C10: the numeric key `NaN` passes `WithValue` construction (its `typeof`
is `"number"`), but since lookup compares keys with `===` and `NaN === NaN`
is false, `value(NaN)` never matches the node's own binding and delegates to
the parent; on every chain rooted at `Background`, looking up `NaN` returns
`null`. -/
theorem C10_nan_key_never_matches (p : VCtx) (v : JSVal) (ls : List Layer) :
    withValueMk p (.numv .nan) v = Except.ok (.withValue p (.numv .nan) v) ∧
    VCtx.value (.withValue p (.numv .nan) v) (.numv .nan) = VCtx.value p (.numv .nan) ∧
    VCtx.value (stackCtx ls) (.numv .nan) = none := by
  refine ⟨rfl, rfl, ?_⟩
  exact stackCtx_value_unbound ls _ (fun k v2 _ => strictEq_nan_right k)

/-- C2 (amended): calling `cancel()` on a node whose signal has already fired
re-fires nothing — the fired flag, every listener list, every other signal,
all timers and promises are untouched — but it does overwrite the recorded
cause with `Canceled`: the result world is exactly `setSigErr w s Canceled`.
In particular a second `cancel()` after an explicit cancel leaves the cause
`Canceled` (unchanged), while a `cancel()` after a `DeadlineExceeded` firing
replaces the recorded cause (see the counterexample). -/
theorem C2_cancel_after_fire (n : Nat) (w : World) (s : Nat) (w2 : World)
    (hab : sigAborted w s = true)
    (hrun : cancelCtx n w s = some w2) :
    w2 = setSigErr w s .canceled := by
  cases n with
  | zero => exact absurd hrun (by simp [cancelCtx, run])
  | succ n1 =>
    rw [cancelCtx, run_cancelSig] at hrun
    cases n1 with
    | zero => exact absurd hrun (by simp [run])
    | succ n2 =>
      rw [run_abortSig] at hrun
      have hab2 : sigAborted (setSigErr w s .canceled) s = true := by
        cases hget : sigGet w s with
        | none =>
          rw [sigAborted] at hab
          rw [hget] at hab
          exact absurd hab (by simp)
        | some st =>
          have : sigGet (setSigErr w s .canceled) s =
              some ⟨some .canceled, st.aborted, st.listeners⟩ := by
            rw [sigGet_setSigErr_self, hget]
            rfl
          rw [sigAborted_of_get this]
          rw [sigAborted_of_get hget] at hab
          exact hab
      rw [if_pos hab2] at hrun
      exact (Option.some.inj hrun).symm

theorem C2_cancel_after_fire_witness :
    sigAborted ⟨[(0, ⟨some .deadlineExceeded, true, []⟩)], 1, [], 0, [], 0, 0⟩ 0 = true ∧
    cancelCtx 2 ⟨[(0, ⟨some .deadlineExceeded, true, []⟩)], 1, [], 0, [], 0, 0⟩ 0 =
      some (setSigErr ⟨[(0, ⟨some .deadlineExceeded, true, []⟩)], 1, [], 0, [], 0, 0⟩ 0
        .canceled) ∧
    (some (setSigErr ⟨[(0, ⟨some .deadlineExceeded, true, []⟩)], 1, [], 0, [], 0, 0⟩ 0
        .canceled)).get (by decide) =
      setSigErr ⟨[(0, ⟨some .deadlineExceeded, true, []⟩)], 1, [], 0, [], 0, 0⟩ 0 .canceled := by
  refine ⟨by decide, by decide, ?_⟩
  exact C2_cancel_after_fire 2 _ 0 _ (by decide) (by decide)

/-- C2 (counterexample to the claim as stated): a `WithTimeout(Background, 5)`
node whose deadline fires (cause `DeadlineExceeded`) and which is then
explicitly canceled ends up with `error()` = `Canceled`: the later `cancel()`
is not a no-op on the recorded cause, because `CancelSignal.cancel`
unconditionally assigns `this._error` before the (idempotent) abort. -/
theorem C2_counterexample :
    ((withTimeoutMk 9 emptyWorld none 5).bind fun pr =>
      (elapse 9 pr.1 6).bind fun wa =>
        (cancelCtx 9 wa pr.2).map fun wb => (sigErr wa pr.2, sigErr wb pr.2)) =
      some (some .deadlineExceeded, some .canceled) := by
  decide

/-- C9: constructing a `WithCancel` (or `WithTimeout`) node over a parent
whose signal has already fired yields a node that is born canceled: before
the constructor returns, the new signal is aborted and its `error()` equals
the parent's recorded cause, because `onCanceled` on an already-fired signal
invokes the callback synchronously.  For `WithTimeout` the armed timer is
likewise disarmed synchronously, leaving the timer set unchanged. -/
theorem C9_child_of_fired_parent_born_canceled (w : World) (p : Nat) (stp : SignalSt)
    (e : Err) (ms : Nat) (hwo : WrapperOnly w) (hsb : SigsBelow w)
    (htb : ∀ pr ∈ w.timers, pr.1 < w.nextTimer)
    (hp : sigGet w p = some stp) (hpab : stp.aborted = true) (herr : stp.error = some e) :
    (∃ w1, withCancelMk 9 w (some p) = some (w1, w.nextSig) ∧
      sigErr w1 w.nextSig = some e ∧ sigAborted w1 w.nextSig = true) ∧
    (∃ w1t, withTimeoutMk 9 w (some p) ms = some (w1t, w.nextSig) ∧
      sigErr w1t w.nextSig = some e ∧ sigAborted w1t w.nextSig = true ∧
      w1t.timers = w.timers) := by
  have hplt : p < w.nextSig := hsb _ (assocGet_mem hp)
  have hps : p ≠ w.nextSig := Nat.ne_of_lt hplt
  have h1p : sigGet (newSignal w).1 p = some stp := by
    rw [sigGet_newSignal_ne p hps]; exact hp
  have hab1 : sigAborted (newSignal w).1 p = true := by
    rw [sigAborted_of_get h1p]; exact hpab
  have herr1 : sigErr (newSignal w).1 p = some e := by
    rw [sigErr_of_get h1p]; exact herr
  have h1s := sigGet_newSignal_self hsb
  have hgse : sigGet (setSigErr (newSignal w).1 w.nextSig e) w.nextSig =
      some ⟨some e, false, []⟩ := by
    rw [sigGet_setSigErr_self, h1s]; rfl
  -- the handler invocation fires the fresh signal immediately
  have hOn1 : onCanceled 9 (newSignal w).1 p (.cancelHandler p w.nextSig) =
      some (setSigAborted (setSigErr (newSignal w).1 w.nextSig e) w.nextSig) := by
    rw [onCanceled_aborted hab1]
    show run (8 + 1) _ _ = _
    rw [run_invoke_cancelHandler, herr1]
    simp only [Option.getD_some]
    show run (7 + 1) _ _ = _
    rw [run_cancelSig]
    show run (6 + 1) _ _ = _
    rw [run_abortSig, if_neg (by rw [sigAborted_of_get hgse]; exact Bool.false_ne_true),
      sigListeners_of_get hgse]
    exact run_dispatch_nil _ _ _
  have hbs : sigGet (setSigAborted (setSigErr (newSignal w).1 w.nextSig e) w.nextSig)
      w.nextSig = some ⟨some e, true, []⟩ := by
    rw [sigGet_setSigAborted_self, hgse]; rfl
  have hbab : sigAborted (setSigAborted (setSigErr (newSignal w).1 w.nextSig e) w.nextSig)
      w.nextSig = true := by
    rw [sigAborted_of_get hbs]
  have hwo_b : WrapperOnly (setSigAborted (setSigErr (newSignal w).1 w.nextSig e)
      w.nextSig) :=
    wrapperOnly_setSigAborted (wrapperOnly_setSigErr (wrapperOnly_newSignal hwo hsb))
  have hraw : FnCode.cancelHandler p w.nextSig ∉
      sigListeners (setSigAborted (setSigErr (newSignal w).1 w.nextSig e) w.nextSig) p := by
    intro hin
    exact Bool.noConfusion (hwo_b p _ hin)
  have hOn2 : onCanceled 9 (setSigAborted (setSigErr (newSignal w).1 w.nextSig e) w.nextSig)
      w.nextSig (.removeHandler p (.cancelHandler p w.nextSig)) =
      some (setSigAborted (setSigErr (newSignal w).1 w.nextSig e) w.nextSig) := by
    rw [onCanceled_aborted hbab]
    show run (8 + 1) _ _ = _
    rw [run_invoke_removeHandler, removeListener_eq_self _ _ _ hraw]
  have heqC : withCancelMk 9 w (some p) =
      some (setSigAborted (setSigErr (newSignal w).1 w.nextSig e) w.nextSig, w.nextSig) := by
    show withCancelWire 9 w p = _
    unfold withCancelWire
    rw [newSignal_snd]
    simp only [hOn1, hOn2]
  refine ⟨⟨_, heqC, sigErr_of_get hbs, sigAborted_of_get hbs⟩, ?_⟩
  -- WithTimeout: the timer is armed and immediately disarmed
  have htimers : (setSigAborted (setSigErr (newSignal w).1 w.nextSig e) w.nextSig).timers =
      w.timers := rfl
  have hbsArm : sigGet (armTimer (setSigAborted (setSigErr (newSignal w).1 w.nextSig e)
      w.nextSig) ms (.fireDeadline w.nextSig)).1 w.nextSig = some ⟨some e, true, []⟩ := by
    rw [sigGet_armTimer]; exact hbs
  have hbabArm : sigAborted (armTimer (setSigAborted (setSigErr (newSignal w).1 w.nextSig e)
      w.nextSig) ms (.fireDeadline w.nextSig)).1 w.nextSig = true := by
    rw [sigAborted_of_get hbsArm]
  have hOn3 : onCanceled 9 (armTimer (setSigAborted (setSigErr (newSignal w).1 w.nextSig e)
      w.nextSig) ms (.fireDeadline w.nextSig)).1 w.nextSig
      (.clearTimeoutFn (armTimer (setSigAborted (setSigErr (newSignal w).1 w.nextSig e)
        w.nextSig) ms (.fireDeadline w.nextSig)).2) =
      some (clearTimerW (armTimer (setSigAborted (setSigErr (newSignal w).1 w.nextSig e)
        w.nextSig) ms (.fireDeadline w.nextSig)).1
        (armTimer (setSigAborted (setSigErr (newSignal w).1 w.nextSig e)
          w.nextSig) ms (.fireDeadline w.nextSig)).2) := by
    rw [onCanceled_aborted hbabArm]
    show run (8 + 1) _ _ = _
    rw [run_invoke_clearTimeoutFn]
  refine ⟨clearTimerW (armTimer (setSigAborted (setSigErr (newSignal w).1 w.nextSig e)
      w.nextSig) ms (.fireDeadline w.nextSig)).1
      (armTimer (setSigAborted (setSigErr (newSignal w).1 w.nextSig e)
        w.nextSig) ms (.fireDeadline w.nextSig)).2, ?_, ?_, ?_, ?_⟩
  · show withTimeoutMk 9 w (some p) ms = _
    unfold withTimeoutMk
    simp only [heqC, hOn3]
  · show sigErr (clearTimerW _ _) w.nextSig = some e
    rw [show sigErr (clearTimerW (armTimer (setSigAborted (setSigErr (newSignal w).1
        w.nextSig e) w.nextSig) ms (.fireDeadline w.nextSig)).1
        (armTimer (setSigAborted (setSigErr (newSignal w).1 w.nextSig e)
          w.nextSig) ms (.fireDeadline w.nextSig)).2) w.nextSig =
      sigErr (setSigAborted (setSigErr (newSignal w).1 w.nextSig e) w.nextSig) w.nextSig
      from rfl]
    exact sigErr_of_get hbs
  · show sigAborted (clearTimerW _ _) w.nextSig = true
    rw [show sigAborted (clearTimerW (armTimer (setSigAborted (setSigErr (newSignal w).1
        w.nextSig e) w.nextSig) ms (.fireDeadline w.nextSig)).1
        (armTimer (setSigAborted (setSigErr (newSignal w).1 w.nextSig e)
          w.nextSig) ms (.fireDeadline w.nextSig)).2) w.nextSig =
      sigAborted (setSigAborted (setSigErr (newSignal w).1 w.nextSig e) w.nextSig) w.nextSig
      from rfl]
    exact sigAborted_of_get hbs
  · show assocDel ((setSigAborted (setSigErr (newSignal w).1 w.nextSig e)
        w.nextSig).timers ++ [((setSigAborted (setSigErr (newSignal w).1 w.nextSig e)
        w.nextSig).nextTimer,
        ⟨(setSigAborted (setSigErr (newSignal w).1 w.nextSig e) w.nextSig).now + ms,
          .fireDeadline w.nextSig⟩)])
      (setSigAborted (setSigErr (newSignal w).1 w.nextSig e) w.nextSig).nextTimer =
      w.timers
    rw [show (setSigAborted (setSigErr (newSignal w).1 w.nextSig e) w.nextSig).timers =
      w.timers from rfl]
    rw [show (setSigAborted (setSigErr (newSignal w).1 w.nextSig e) w.nextSig).nextTimer =
      w.nextTimer from rfl]
    exact assocDel_append_fresh w.timers w.nextTimer _
      (fun pr hpr => Nat.ne_of_lt (htb pr hpr))

theorem C9_child_of_fired_parent_born_canceled_witness :
    WrapperOnly ⟨[(0, ⟨some .canceled, true, []⟩)], 1, [], 0, [], 0, 0⟩ ∧
    SigsBelow ⟨[(0, ⟨some .canceled, true, []⟩)], 1, [], 0, [], 0, 0⟩ ∧
    (∀ pr ∈ (⟨[(0, ⟨some .canceled, true, []⟩)], 1, [], 0, [], 0, 0⟩ : World).timers,
      pr.1 < (⟨[(0, ⟨some .canceled, true, []⟩)], 1, [], 0, [], 0, 0⟩ : World).nextTimer) ∧
    sigGet ⟨[(0, ⟨some .canceled, true, []⟩)], 1, [], 0, [], 0, 0⟩ 0 =
      some ⟨some .canceled, true, []⟩ ∧
    (⟨some .canceled, true, []⟩ : SignalSt).aborted = true ∧
    (⟨some .canceled, true, []⟩ : SignalSt).error = some .canceled ∧
    ((∃ w1, withCancelMk 9 ⟨[(0, ⟨some .canceled, true, []⟩)], 1, [], 0, [], 0, 0⟩
        (some 0) = some (w1, 1) ∧
      sigErr w1 1 = some .canceled ∧ sigAborted w1 1 = true) ∧
    (∃ w1t, withTimeoutMk 9 ⟨[(0, ⟨some .canceled, true, []⟩)], 1, [], 0, [], 0, 0⟩
        (some 0) 4 = some (w1t, 1) ∧
      sigErr w1t 1 = some .canceled ∧ sigAborted w1t 1 = true ∧
      w1t.timers = (⟨[(0, ⟨some .canceled, true, []⟩)], 1, [], 0, [], 0, 0⟩ : World).timers)) := by
  have hwo : WrapperOnly ⟨[(0, ⟨some .canceled, true, []⟩)], 1, [], 0, [], 0, 0⟩ := by
    intro i f hf
    refine absurd hf ?_
    by_cases h : (0 : Nat) = i <;> simp [sigListeners, sigGet, assocGet, h]
  have hsb : SigsBelow ⟨[(0, ⟨some .canceled, true, []⟩)], 1, [], 0, [], 0, 0⟩ := by
    intro pr hpr
    simp only [List.mem_singleton] at hpr
    subst hpr
    decide
  have htb : ∀ pr ∈ (⟨[(0, ⟨some .canceled, true, []⟩)], 1, [], 0, [], 0, 0⟩ : World).timers,
      pr.1 < (⟨[(0, ⟨some .canceled, true, []⟩)], 1, [], 0, [], 0, 0⟩ : World).nextTimer := by
    intro pr hpr
    exact absurd hpr (by simp)
  exact ⟨hwo, hsb, htb, by decide, by decide, by decide,
    C9_child_of_fired_parent_born_canceled _ 0 ⟨some .canceled, true, []⟩ .canceled 4
      hwo hsb htb (by decide) rfl rfl⟩

theorem elapseTo_none {n : Nat} {w : World} {t : Nat} (h : earliestDue w t = none) :
    elapseTo (n + 1) w t = some { w with now := t } := by
  unfold elapseTo
  rw [h]

theorem elapseTo_fire {n : Nat} {w : World} {t tid : Nat} {tm : TimerSt}
    (h : earliestDue w t = some (tid, tm)) :
    elapseTo (n + 1) w t =
      (match
        (match tm.act with
         | .fireDeadline s =>
           run n { clearTimerW w tid with now := tm.due } (.cancelSig s .deadlineExceeded)
         | .resolveLaterAct pid v =>
           some (resolveProm { clearTimerW w tid with now := tm.due } pid v)) with
       | none => none
       | some w2 => elapseTo n w2 t) := by
  conv_lhs => unfold elapseTo
  rw [h]

/-- C4: a `WithTimeout` node explicitly canceled at any time `t0` before its
deadline `ms` records `Canceled`, its armed timer is disarmed at that moment
(the timer set becomes empty), and after any further delay `d` — in
particular past the original deadline — the cause is still `Canceled`:
`DeadlineExceeded` is never recorded. -/
theorem C4_cancel_before_deadline_stays_canceled (ms t0 d : Nat) (h : t0 < ms) :
    ∃ w1 wt wc wd,
      withTimeoutMk 9 emptyWorld none ms = some (w1, 0) ∧
      elapse 9 w1 t0 = some wt ∧
      cancelCtx 9 wt 0 = some wc ∧
      sigErr wc 0 = some .canceled ∧ sigAborted wc 0 = true ∧ wc.timers = [] ∧
      elapse 9 wc d = some wd ∧
      sigErr wd 0 = some .canceled ∧ sigAborted wd 0 = true := by
  refine ⟨⟨[(0, ⟨none, false, [.wrapper 0 (.clearTimeoutFn 0)]⟩)], 1,
      [(0, ⟨0 + ms, .fireDeadline 0⟩)], 1, [], 0, 0⟩,
    ⟨[(0, ⟨none, false, [.wrapper 0 (.clearTimeoutFn 0)]⟩)], 1,
      [(0, ⟨0 + ms, .fireDeadline 0⟩)], 1, [], 0, 0 + t0⟩,
    ⟨[(0, ⟨some .canceled, true, []⟩)], 1, [], 1, [], 0, 0 + t0⟩,
    ⟨[(0, ⟨some .canceled, true, []⟩)], 1, [], 1, [], 0, 0 + t0 + d⟩,
    rfl, ?_, rfl, rfl, rfl, rfl, rfl, rfl, rfl⟩
  have hED : earliestDue ⟨[(0, ⟨none, false, [.wrapper 0 (.clearTimeoutFn 0)]⟩)], 1,
      [(0, ⟨0 + ms, .fireDeadline 0⟩)], 1, [], 0, 0⟩ (0 + t0) = none := by
    unfold earliestDue
    simp only [List.foldl_cons, List.foldl_nil]
    rw [if_neg (by omega)]
  show elapseTo (8 + 1) _ (0 + t0) = _
  rw [elapseTo_none hED]

theorem C4_cancel_before_deadline_stays_canceled_witness :
    (2 < 5) ∧
    (∃ w1 wt wc wd,
      withTimeoutMk 9 emptyWorld none 5 = some (w1, 0) ∧
      elapse 9 w1 2 = some wt ∧
      cancelCtx 9 wt 0 = some wc ∧
      sigErr wc 0 = some .canceled ∧ sigAborted wc 0 = true ∧ wc.timers = [] ∧
      elapse 9 wc 9 = some wd ∧
      sigErr wd 0 = some .canceled ∧ sigAborted wd 0 = true) :=
  ⟨by decide, C4_cancel_before_deadline_stays_canceled 5 2 9 (by decide)⟩

/-- C7: a `ContextPromise` bound to a `WithCancel` context whose signal fires
before the wrapped executor settles rejects with the context's recorded
cause, and stays rejected even after the executor's own delayed resolution
comes due (first settlement wins); conversely, if the executor resolves
first, a later cancellation leaves the promise resolved with its value. -/
theorem C7_promise_rejects_on_cancel_first_settlement_wins (ms : Nat) (v : Int) (d : Nat) :
    ∃ w1, withCancelMk 9 emptyWorld none = some (w1, 0) ∧
    (∃ w2 w3 wd,
      contextPromiseMk 9 w1 (some 0) (.resolveAfter ms v) = some (w2, 0) ∧
      cancelCtx 9 w2 0 = some w3 ∧
      promGet w3 0 = some (.rejectedWith (some .canceled)) ∧
      elapse 9 w3 d = some wd ∧
      promGet wd 0 = some (.rejectedWith (some .canceled))) ∧
    (∃ w2b w3b,
      contextPromiseMk 9 w1 (some 0) (.resolveNow v) = some (w2b, 0) ∧
      cancelCtx 9 w2b 0 = some w3b ∧
      promGet w3b 0 = some (.resolvedWith v)) := by
  refine ⟨⟨[(0, ⟨none, false, []⟩)], 1, [], 0, [], 0, 0⟩, rfl, ?_, ?_⟩
  · by_cases hms : 0 + ms ≤ 0 + d
    · have hED : earliestDue ⟨[(0, ⟨some .canceled, true, []⟩)], 1,
          [(0, ⟨0 + ms, .resolveLaterAct 0 v⟩)], 1,
          [(0, .rejectedWith (some .canceled))], 1, 0⟩ (0 + d) =
          some (0, ⟨0 + ms, .resolveLaterAct 0 v⟩) := by
        unfold earliestDue
        simp only [List.foldl_cons, List.foldl_nil]
        rw [if_pos hms]
      refine ⟨⟨[(0, ⟨none, false, [.wrapper 0 (.rejectPromise 0)]⟩)], 1,
          [(0, ⟨0 + ms, .resolveLaterAct 0 v⟩)], 1, [(0, .pending)], 1, 0⟩,
        ⟨[(0, ⟨some .canceled, true, []⟩)], 1, [(0, ⟨0 + ms, .resolveLaterAct 0 v⟩)], 1,
          [(0, .rejectedWith (some .canceled))], 1, 0⟩,
        ⟨[(0, ⟨some .canceled, true, []⟩)], 1, [], 1,
          [(0, .rejectedWith (some .canceled))], 1, 0 + d⟩,
        rfl, rfl, rfl, ?_, rfl⟩
      show elapseTo (8 + 1) _ (0 + d) = _
      rw [elapseTo_fire hED]
      rfl
    · have hED : earliestDue ⟨[(0, ⟨some .canceled, true, []⟩)], 1,
          [(0, ⟨0 + ms, .resolveLaterAct 0 v⟩)], 1,
          [(0, .rejectedWith (some .canceled))], 1, 0⟩ (0 + d) = none := by
        unfold earliestDue
        simp only [List.foldl_cons, List.foldl_nil]
        rw [if_neg hms]
      refine ⟨⟨[(0, ⟨none, false, [.wrapper 0 (.rejectPromise 0)]⟩)], 1,
          [(0, ⟨0 + ms, .resolveLaterAct 0 v⟩)], 1, [(0, .pending)], 1, 0⟩,
        ⟨[(0, ⟨some .canceled, true, []⟩)], 1, [(0, ⟨0 + ms, .resolveLaterAct 0 v⟩)], 1,
          [(0, .rejectedWith (some .canceled))], 1, 0⟩,
        ⟨[(0, ⟨some .canceled, true, []⟩)], 1, [(0, ⟨0 + ms, .resolveLaterAct 0 v⟩)], 1,
          [(0, .rejectedWith (some .canceled))], 1, 0 + d⟩,
        rfl, rfl, rfl, ?_, rfl⟩
      show elapseTo (8 + 1) _ (0 + d) = _
      rw [elapseTo_none hED]
  · exact ⟨⟨[(0, ⟨none, false, [.wrapper 0 (.rejectPromise 0)]⟩)], 1, [], 0,
        [(0, .resolvedWith v)], 1, 0⟩,
      ⟨[(0, ⟨some .canceled, true, []⟩)], 1, [], 0, [(0, .resolvedWith v)], 1, 0⟩,
      rfl, rfl, rfl⟩

/-- C3 (the code at the failing input): for
`p = WithTimeout(Background, 5); c = WithCancel(p); c.cancel()`, the
propagation listener registered on `p`'s signal during `c`'s construction is
NOT removed when `c`'s own signal fires — `removeEventListener` is passed the
raw `handler`, but `onCanceled` registered an anonymous wrapper around it —
so `p`'s listener list still holds `c`'s propagation wrapper after
`c.cancel()`; consequently, when `p`'s deadline later fires, the stale
wrapper runs and overwrites `c`'s recorded cause with `DeadlineExceeded`. -/
theorem C3_observer_not_removed_on_child_fire :
    ((withTimeoutMk 9 emptyWorld none 5).bind fun pr =>
      (withCancelMk 9 pr.1 (some 0)).bind fun pr2 =>
        (cancelCtx 9 pr2.1 1).bind fun wa =>
          (elapse 9 wa 6).map fun wb =>
            (sigErr wa 1, sigListeners wa 0, sigErr wb 1)) =
      some (some .canceled,
        [.wrapper 0 (.clearTimeoutFn 0), .wrapper 0 (.cancelHandler 0 1)],
        some .deadlineExceeded) := by
  decide

end DenoContext
